import Mathlib

set_option maxHeartbeats 1000000
set_option maxRecDepth 400000

/-!
Shallow embedding of the city network generator in
`src/city_generator/city_builder.py` (class `CityBuilder`), together with
proofs settling the frozen claims about it.

Modelling conventions:
* Python's ambient `random` module is modelled as an explicit stream of raw
  natural-number draws (`Rng`), with the read position threaded explicitly.
* Python integers are `Int`; `//` on nonnegative divisors is `Int./` (euclidean
  division agrees with floor division for positive divisors).
* Fallible operations (`random.randint` on an empty range raises `ValueError`)
  return `Option`.
* Float thresholds (`random.random() < 0.4`) are modelled by a uniform draw of
  milli-units `0 ≤ u < 1000` compared against `400`; float station-count
  formulas are modelled by exact rational arithmetic truncated to `Nat`.
-/

/-- Python's global `random` stream: an infinite sequence of raw draws. -/
def Rng : Type := Nat → Nat

/-- `random.randint(lo, hi)`: uniform on the inclusive range; an empty range
raises `ValueError`, modelled as `none`. -/
def randint (lo hi : Int) (g : Rng) (p : Nat) : Option (Int × Nat) :=
  if hi < lo then none
  else some (lo + (g p : Int) % (hi - lo + 1), p + 1)

/-- `random.random()` (only ever used in threshold comparisons): a uniform
draw of milli-units `0 ≤ u < 1000`. -/
def random_unit (g : Rng) (p : Nat) : Nat × Nat := (g p % 1000, p + 1)

/-- `random.choice(xs)`: a uniform element of `xs`; raises on an empty list. -/
def random_choice (xs : List String) (g : Rng) (p : Nat) : Option (String × Nat) :=
  if h : xs.length = 0 then none
  else some (xs.get ⟨g p % xs.length, Nat.mod_lt _ (Nat.pos_of_ne_zero h)⟩, p + 1)

/-- `Station` dataclass / station dict of `CityBuilder`. -/
structure Station where
  id : String
  x : Int
  y : Int
  type : String
  is_transfer : Bool
  deriving DecidableEq, Repr

/-- Zone dict produced by `_generate_zones`. -/
structure Zone where
  x : Int
  y : Int
  type : String
  deriving DecidableEq, Repr

/-- Connection dict produced by `_generate_connections`. -/
structure Connection where
  «from» : String
  «to» : String
  walk_time : Int
  deriving DecidableEq, Repr

/-- Route dict produced by `_generate_routes`. -/
structure Route where
  id : String
  mode : String
  stations : List String
  color : String
  deriving DecidableEq, Repr

/-- The dict returned by `generate_random_city`. -/
structure CityModel where
  grid_size : Int
  zones : List Zone
  stations : List Station
  connections : List Connection
  routes : List Route
  deriving DecidableEq, Repr

/-- `self.zone_types` set in `CityBuilder.__init__`. -/
def zone_types : List String := ["residential", "commercial", "industrial"]

/-- `self.station_types` set in `CityBuilder.__init__`. -/
def station_types : List String := ["bus", "tram", "metro"]

/-! ### Zone generation (`CityBuilder._generate_zones`) -/

/-- The `grid` local of `_generate_zones`: a partial map from cell to zone
type, kept as first-order data (list of writes, the most recent first). -/
def GridMap : Type := List ((Int × Int) × String)

/-- The all-`None` initial grid. -/
def emptyGrid : GridMap := []

/-- Reading `grid[x][y]`: the most recent write to that cell, if any. -/
def gridGet (gr : GridMap) (c : Int × Int) : Option String :=
  match gr.find? (fun e => decide (e.1 = c)) with
  | some e => some e.2
  | none => none

/-- Writing `grid[x][y] = v`: a fresh write shadowing any older one. -/
def gridSet (gr : GridMap) (c : Int × Int) (v : String) : GridMap := (c, v) :: gr

/-- `cluster_size = max(2, self.grid_size // 3)`. -/
def cluster_size (gs : Int) : Int := max 2 (gs / 3)

/-- Python `range(lo, hi)` over integers. -/
def intRange (lo hi : Int) : List Int :=
  (List.range (hi - lo).toNat).map (fun (k : Nat) => lo + (k : Int))

/-- The doubly nested `for dx ... for dy ...` cluster-filling loop: write the
zone type into every in-bounds, still-unassigned cell of the square footprint
around the chosen center (first writer wins). -/
def fill_cluster (gs : Int) (zt : String) (cx cy : Int) (grid : GridMap) : GridMap :=
  (intRange (-(cluster_size gs) / 2) (cluster_size gs / 2 + 1)).foldl (fun g1 dx =>
    (intRange (-(cluster_size gs) / 2) (cluster_size gs / 2 + 1)).foldl (fun g2 dy =>
      let x := cx + dx
      let y := cy + dy
      if 0 ≤ x ∧ x < gs ∧ 0 ≤ y ∧ y < gs ∧ gridGet g2 (x, y) = none then
        gridSet g2 (x, y) zt
      else g2) g1) grid

/-- The `for zone_type in self.zone_types` loop of `_generate_zones`: pick a
random center for each zone type and fill its cluster. -/
def cluster_centers_loop (gs : Int) (g : Rng) :
    List String → GridMap → Nat → Option (GridMap × Nat)
  | [], grid, p => some (grid, p)
  | zt :: rest, grid, p =>
    match randint (cluster_size gs / 2) (gs - cluster_size gs / 2 - 1) g p with
    | none => none
    | some (cx, p1) =>
      match randint (cluster_size gs / 2) (gs - cluster_size gs / 2 - 1) g p1 with
      | none => none
      | some (cy, p2) => cluster_centers_loop gs g rest (fill_cluster gs zt cx cy grid) p2

/-- Cell enumeration order of the final `for x in range(...): for y in range(...)` loop. -/
def grid_cells (gs : Int) : List (Int × Int) :=
  (intRange 0 gs).flatMap (fun x => (intRange 0 gs).map (fun y => (x, y)))

/-- The final loop of `_generate_zones`: fill each still-unassigned cell with a
random zone type and emit one zone record per cell. -/
def zone_fill_loop (g : Rng) :
    List (Int × Int) → GridMap → List Zone → Nat → Option (List Zone × Nat)
  | [], _, acc, p => some (acc, p)
  | (x, y) :: rest, grid, acc, p =>
    match gridGet grid (x, y) with
    | some t => zone_fill_loop g rest grid (acc ++ [⟨x, y, t⟩]) p
    | none =>
      match random_choice zone_types g p with
      | none => none
      | some (t, p1) =>
        zone_fill_loop g rest (gridSet grid (x, y) t) (acc ++ [⟨x, y, t⟩]) p1

/-- `CityBuilder._generate_zones`. -/
def generate_zones (gs : Int) (g : Rng) (p : Nat) : Option (List Zone × Nat) :=
  match cluster_centers_loop gs g zone_types emptyGrid p with
  | none => none
  | some (grid, p1) => zone_fill_loop g (grid_cells gs) grid [] p1

/-! ### Station generation (`CityBuilder._generate_stations`) -/

/-- Fuelled decimal digit renderer; `fuel` strictly exceeds the value. -/
def natDigitsAux : Nat → Nat → List Char
  | 0, _ => []
  | fuel + 1, n =>
    if n < 10 then [Nat.digitChar n]
    else natDigitsAux fuel (n / 10) ++ [Nat.digitChar (n % 10)]

/-- Decimal digit list of a natural number (what Python interpolates in
`f"station_{station_id}"`). -/
def natDigits (n : Nat) : List Char := natDigitsAux (n + 1) n

/-- Decimal string of a natural number. -/
def natToString (n : Nat) : String := ⟨natDigits n⟩

/-- `f"station_{station_id}"`; in the source `station_id` always equals the
number of stations appended so far. -/
def mkStationId (n : Nat) : String := "station_" ++ natToString n

/-- `max(3, int(total_area * 0.25 * 0.3))`, the float product modelled exactly. -/
def metro_count (gs : Int) : Nat := max 3 ((gs * gs).toNat * 75 / 1000)

/-- `max(4, int(total_area * 0.25 * 0.35))`. -/
def tram_count (gs : Int) : Nat := max 4 ((gs * gs).toNat * 875 / 10000)

/-- `max(5, int(total_area * 0.25 * 0.4))`. -/
def bus_count (gs : Int) : Nat := max 5 ((gs * gs).toNat * 100 / 1000)

/-- `min_distance = max(2, self.grid_size // 6)`. -/
def min_distance (gs : Int) : Int := max 2 (gs / 6)

/-- Nested helper `is_too_close`: Manhattan distance to some existing position
is below the minimum. -/
def is_too_close (x y : Int) (existing : List (Int × Int)) (min_dist : Int) : Bool :=
  existing.any (fun q => decide (|x - q.1| + |y - q.2| < min_dist))

/-- The attempt loop of `find_good_position`: up to `attempts` rejection-checked
samples; on exhaustion one extra unchecked sample is drawn and returned. -/
def find_good_position_aux (gs : Int) (existing : List (Int × Int)) (min_dist : Int)
    (g : Rng) : Nat → Nat → Option ((Int × Int) × Nat)
  | 0, p =>
    match randint 0 (gs - 1) g p with
    | none => none
    | some (x, p1) =>
      match randint 0 (gs - 1) g p1 with
      | none => none
      | some (y, p2) => some ((x, y), p2)
  | attempts + 1, p =>
    match randint 0 (gs - 1) g p with
    | none => none
    | some (x, p1) =>
      match randint 0 (gs - 1) g p1 with
      | none => none
      | some (y, p2) =>
        if is_too_close x y existing min_dist then
          find_good_position_aux gs existing min_dist g attempts p2
        else some ((x, y), p2)

/-- Nested helper `find_good_position` with its `max_attempts=50` budget. -/
def find_good_position (gs : Int) (existing : List (Int × Int)) (min_dist : Int)
    (g : Rng) (p : Nat) : Option ((Int × Int) × Nat) :=
  find_good_position_aux gs existing min_dist g 50 p

/-- The metro placement loop: every metro gets a fresh rejection-sampled
position, appended to `station_positions`. -/
def metro_loop (gs : Int) (g : Rng) :
    Nat → List (Int × Int) × List Station × Nat →
    Option (List (Int × Int) × List Station × Nat)
  | 0, st => some st
  | n + 1, (positions, stations, p) =>
    match find_good_position gs positions (min_distance gs) g p with
    | none => none
    | some ((x, y), p1) =>
      metro_loop gs g n
        (positions ++ [(x, y)],
         stations ++ [⟨mkStationId stations.length, x, y, "metro", false⟩], p1)

/-- The tram placement loop: with probability 0.4 (and only when
`i < len(station_positions)`, short-circuiting the float draw) reuse position
`i`; otherwise rejection-sample with half the minimum distance. -/
def tram_loop (gs : Int) (g : Rng) :
    List Nat → List (Int × Int) × List Station × Nat →
    Option (List (Int × Int) × List Station × Nat)
  | [], st => some st
  | i :: rest, (positions, stations, p) =>
    if h : i < positions.length then
      let u := random_unit g p
      if u.1 < 400 then
        let q := positions.get ⟨i, h⟩
        tram_loop gs g rest
          (positions,
           stations ++ [⟨mkStationId stations.length, q.1, q.2, "tram", false⟩], u.2)
      else
        match find_good_position gs positions (min_distance gs / 2) g u.2 with
        | none => none
        | some ((x, y), p2) =>
          tram_loop gs g rest
            (positions ++ [(x, y)],
             stations ++ [⟨mkStationId stations.length, x, y, "tram", false⟩], p2)
    else
      match find_good_position gs positions (min_distance gs / 2) g p with
      | none => none
      | some ((x, y), p2) =>
        tram_loop gs g rest
          (positions ++ [(x, y)],
           stations ++ [⟨mkStationId stations.length, x, y, "tram", false⟩], p2)

/-- The bus placement loop: with probability 0.3 reuse position `i % len`;
otherwise rejection-sample with a third of the minimum distance. -/
def bus_loop (gs : Int) (g : Rng) :
    List Nat → List (Int × Int) × List Station × Nat →
    Option (List (Int × Int) × List Station × Nat)
  | [], st => some st
  | i :: rest, (positions, stations, p) =>
    if h : i < positions.length then
      let u := random_unit g p
      if u.1 < 300 then
        let q := positions.get ⟨i % positions.length, Nat.mod_lt _ (by omega)⟩
        bus_loop gs g rest
          (positions,
           stations ++ [⟨mkStationId stations.length, q.1, q.2, "bus", false⟩], u.2)
      else
        match find_good_position gs positions (min_distance gs / 3) g u.2 with
        | none => none
        | some ((x, y), p2) =>
          bus_loop gs g rest
            (positions ++ [(x, y)],
             stations ++ [⟨mkStationId stations.length, x, y, "bus", false⟩], p2)
    else
      match find_good_position gs positions (min_distance gs / 3) g p with
      | none => none
      | some ((x, y), p2) =>
        bus_loop gs g rest
          (positions ++ [(x, y)],
           stations ++ [⟨mkStationId stations.length, x, y, "bus", false⟩], p2)

/-- `CityBuilder._generate_stations`: metro, then tram, then bus placement. -/
def generate_stations (gs : Int) (g : Rng) (p : Nat) : Option (List Station × Nat) :=
  match metro_loop gs g (metro_count gs) ([], [], p) with
  | none => none
  | some st1 =>
    match tram_loop gs g (List.range (tram_count gs)) st1 with
    | none => none
    | some st2 =>
      match bus_loop gs g (List.range (bus_count gs)) st2 with
      | none => none
      | some (_, stations, p3) => some (stations, p3)

/-! ### Connections (`CityBuilder._generate_connections`) -/

/-- Insertion step of the insertion-ordered grouping dict `location_groups`. -/
def add_to_groups (key : Int × Int) (s : Station) :
    List ((Int × Int) × List Station) → List ((Int × Int) × List Station)
  | [] => [(key, [s])]
  | (k, grp) :: rest =>
    if k = key then (k, grp ++ [s]) :: rest else (k, grp) :: add_to_groups key s rest

/-- `location_groups`: stations grouped by exact coordinate. -/
def location_groups (stations : List Station) : List ((Int × Int) × List Station) :=
  stations.foldl (fun acc s => add_to_groups (s.x, s.y) s acc) []

/-- Dict lookup into `location_groups`. -/
def lookup_group (groups : List ((Int × Int) × List Station)) (key : Int × Int) :
    List Station :=
  match groups.find? (fun kg => decide (kg.1 = key)) with
  | some kg => kg.2
  | none => []

/-- The `station["is_transfer"] = True` mutation applied to one station: it is
marked exactly when its own location group holds at least two stations. -/
def mark_one (groups : List ((Int × Int) × List Station)) (s : Station) : Station :=
  if 1 < (lookup_group groups (s.x, s.y)).length then { s with is_transfer := true } else s

/-- The marking pass over the whole station list. -/
def mark_transfers (stations : List Station) : List Station :=
  stations.map (mark_one (location_groups stations))

/-- Pairs `(i, j)` with `i < j` inside one location group: one `walk_time = 2`
edge per different-mode pair. -/
def group_pairs : List Station → List Connection
  | [] => []
  | s :: rest =>
    (rest.filter (fun t => decide (s.type ≠ t.type))).map (fun t => ⟨s.id, t.id, 2⟩)
      ++ group_pairs rest

/-- The transfer-edge pass over all location groups. -/
def transfer_edges (stations : List Station) : List Connection :=
  (location_groups stations).foldl
    (fun acc kg => if 1 < kg.2.length then acc ++ group_pairs kg.2 else acc) []

/-- One scan of the doubly nested minimum search of the backbone loop: the
first strictly smaller `(connected, unconnected)` pair wins, scanning `s1`
then `s2` in station-list order. -/
def find_best_pair (stations : List Station) (connected : List String) :
    Option (Station × Station × Int) :=
  stations.foldl (fun best s1 =>
    if s1.id ∈ connected then
      stations.foldl (fun b2 s2 =>
        if s2.id ∉ connected then
          let d := |s1.x - s2.x| + |s1.y - s2.y|
          match b2 with
          | none => some (s1, s2, d)
          | some (t1, t2, bd) => if d < bd then some (s1, s2, d) else some (t1, t2, bd)
        else b2) best
    else best) none

/-- The fuelled `while len(connected) < len(stations)` backbone loop; each
added edge carries `walk_time = dist * 120` and its target joins `connected`.
With no eligible pair the Python loop would spin forever; the fuelled model
just stops. -/
def backbone_loop (stations : List Station) :
    Nat → List String → List Connection → List String × List Connection
  | 0, connected, conns => (connected, conns)
  | fuel + 1, connected, conns =>
    if connected.length < stations.length then
      match find_best_pair stations connected with
      | none => (connected, conns)
      | some (s1, s2, d) =>
        backbone_loop stations fuel (connected ++ [s2.id])
          (conns ++ [⟨s1.id, s2.id, d * 120⟩])
    else (connected, conns)

/-- The backbone pass: seed `connected` with the first station's id. -/
def backbone_pass (stations : List Station) (conns : List Connection) :
    List Connection :=
  match stations with
  | [] => conns
  | s0 :: _ => (backbone_loop stations stations.length [s0.id] conns).2

/-- The duplicate-edge check of the walking pass. -/
def conn_exists (conns : List Connection) (a b : String) : Bool :=
  conns.any (fun c =>
    decide ((c.«from» = a ∧ c.«to» = b) ∨ (c.«from» = b ∧ c.«to» = a)))

/-- Inner loop of the walking pass: `s2` ranges over `stations[i+1:]`. -/
def walk_inner (s1 : Station) : List Station → List Connection → List Connection
  | [], conns => conns
  | s2 :: rest, conns =>
    if s1.type = s2.type then walk_inner s1 rest conns
    else
      let d := |s1.x - s2.x| + |s1.y - s2.y|
      if d ≤ 2 then
        if conn_exists conns s1.id s2.id then walk_inner s1 rest conns
        else walk_inner s1 rest (conns ++ [⟨s1.id, s2.id, max 3 (d * 100 / 60)⟩])
      else walk_inner s1 rest conns

/-- The walking-edge pass over all `i < j` station pairs. -/
def walking_pass : List Station → List Connection → List Connection
  | [], conns => conns
  | s :: rest, conns => walking_pass rest (walk_inner s rest conns)

/-- Undirected neighbor list from the `defaultdict(set)` adjacency built in
`_verify_connectivity` (duplicates are harmless: the visited check skips
them, exactly as set insertion would). -/
def neighbors (conns : List Connection) (a : String) : List String :=
  conns.foldl (fun acc c =>
    if c.«from» = a then acc ++ [c.«to»]
    else if c.«to» = a then acc ++ [c.«from»]
    else acc) []

/-- One dequeue step of BFS: visit and enqueue every unvisited neighbor. -/
def bfs_step (nbrs : List String) (vq : List String × List String) :
    List String × List String :=
  nbrs.foldl (fun vq n => if n ∈ vq.1 then vq else (vq.1 ++ [n], vq.2 ++ [n])) vq

/-- The fuelled BFS worklist loop shared by `_verify_connectivity` and
`_ensure_connectivity`; state is `(queue, visited)`. -/
def bfs_loop (conns : List Connection) : Nat → List String → List String → List String
  | 0, _, visited => visited
  | _ + 1, [], visited => visited
  | fuel + 1, current :: queue, visited =>
    let vq := bfs_step (neighbors conns current) (visited, queue)
    bfs_loop conns fuel vq.2 vq.1

/-- Fuel that provably outlasts the BFS loop. -/
def bfs_fuel (conns : List Connection) : Nat := 4 * conns.length + 2

/-- `_verify_connectivity`'s BFS from one start node. -/
def bfs_from (conns : List Connection) (start : String) : List String :=
  bfs_loop conns (bfs_fuel conns) [start] [start]

/-- `CityBuilder._verify_connectivity`: BFS from the first station reaches as
many nodes as there are distinct station ids. -/
def verify_connectivity (stations : List Station) (conns : List Connection) : Bool :=
  match stations with
  | [] => true
  | s0 :: _ =>
    decide ((bfs_from conns s0.id).length = ((stations.map Station.id).dedup).length)

/-- The component-collection loop of `_ensure_connectivity`: one shared
`visited` set; each unvisited station seeds a BFS whose freshly visited nodes
form one component. -/
def components_loop (conns : List Connection) :
    List Station → List String → List (List String) → List (List String)
  | [], _, comps => comps
  | st :: rest, visited, comps =>
    if st.id ∈ visited then components_loop conns rest visited comps
    else
      let result := bfs_loop conns (bfs_fuel conns) [st.id] (visited ++ [st.id])
      components_loop conns rest result (comps ++ [result.drop visited.length])

/-- `station_dict` lookup (`{s["id"]: s for s in stations}`). -/
def station_dict_find (stations : List Station) (sid : String) : Option Station :=
  stations.find? (fun s => decide (s.id = sid))

/-- The closest-pair scan across distinct components (`i < j`); Python iterates
hash sets here, an order the embedding fixes as insertion order. Ids that fail
to resolve in `station_dict` (a `KeyError` in Python) are skipped. -/
def find_bridge (stations : List Station) (comps : List (List String)) :
    Option (Nat × Nat × String × String × Int) :=
  comps.enum.foldl (fun best ic1 =>
    (comps.enum.drop (ic1.1 + 1)).foldl (fun b2 jc2 =>
      ic1.2.foldl (fun b3 sid1 =>
        jc2.2.foldl (fun b4 sid2 =>
          match station_dict_find stations sid1, station_dict_find stations sid2 with
          | some s1, some s2 =>
            let d := |s1.x - s2.x| + |s1.y - s2.y|
            match b4 with
            | none => some (ic1.1, jc2.1, sid1, sid2, d)
            | some (bi, bj, ba, bb, bd) =>
              if d < bd then some (ic1.1, jc2.1, sid1, sid2, d)
              else some (bi, bj, ba, bb, bd)
          | _, _ => b4) b3) b2) best) none

/-- `components[i].update(components[j]); components.pop(j)` with `i < j`. -/
def merge_components (comps : List (List String)) (i j : Nat) : List (List String) :=
  (comps.set i (comps.getD i [] ++ comps.getD j [])).eraseIdx j

/-- The fuelled `while len(components) > 1` repair loop: bridge the closest
pair of components with a `dist * 120` edge and merge them. -/
def merge_loop (stations : List Station) :
    Nat → List (List String) → List Connection → List Connection
  | 0, _, conns => conns
  | fuel + 1, comps, conns =>
    if 1 < comps.length then
      match find_bridge stations comps with
      | none => conns
      | some (i, j, sid1, sid2, d) =>
        merge_loop stations fuel (merge_components comps i j)
          (conns ++ [⟨sid1, sid2, d * 120⟩])
    else conns

/-- `CityBuilder._ensure_connectivity`. -/
def ensure_connectivity (stations : List Station) (conns : List Connection) :
    List Connection :=
  if verify_connectivity stations conns then conns
  else
    let comps := components_loop conns stations [] []
    merge_loop stations comps.length comps conns

/-- `CityBuilder._generate_connections`, returning the station list with its
in-place `is_transfer` mutations alongside the connection list. -/
def generate_connections (stations : List Station) : List Station × List Connection :=
  let marked := mark_transfers stations
  let c1 := transfer_edges stations
  let c2 := backbone_pass marked c1
  let c3 := walking_pass marked c2
  (marked, ensure_connectivity marked c3)

/-! ### Routes (`CityBuilder._generate_routes` and helpers) -/

/-- Manhattan distance between two stations. -/
def manhattan (a b : Station) : Int := |a.x - b.x| + |a.y - b.y|

/-- Python `min(stations, key=lambda s: s["x"])`: the first station attaining
the minimal x. -/
def min_by_x : List Station → Option Station
  | [] => none
  | s :: rest => some (rest.foldl (fun m t => if t.x < m.x then t else m) s)

/-- Python `min(remaining, key=manhattan-distance-to-current)`: the first
station attaining the minimal distance. -/
def nearest_to (current : Station) : List Station → Option Station
  | [] => none
  | s :: rest =>
    some (rest.foldl (fun m t =>
      if manhattan current t < manhattan current m then t else m) s)

/-- The fuelled `while remaining:` nearest-neighbor loop; `remaining.remove`
drops the first occurrence of the chosen station. -/
def order_loop : Nat → Station → List Station → List Station
  | 0, _, _ => []
  | fuel + 1, current, remaining =>
    match nearest_to current remaining with
    | none => []
    | some nrst => nrst :: order_loop fuel nrst (remaining.erase nrst)

/-- `CityBuilder._order_stations_by_distance`. -/
def order_stations_by_distance (stations : List Station) : List Station :=
  if stations.length ≤ 2 then stations
  else
    match min_by_x stations with
    | none => stations
    | some m =>
      let remaining := stations.filter (fun s => decide (s ≠ m))
      m :: order_loop remaining.length m remaining

/-- Python slice `[::2]`. -/
def every_other {α : Type} : List α → List α
  | [] => []
  | [a] => [a]
  | a :: _ :: rest => a :: every_other rest

/-- Stable insertion step: place `s` after every already-placed station whose
key does not exceed its own. -/
def insert_by_x (s : Station) : List Station → List Station
  | [] => [s]
  | t :: rest => if s.x < t.x then s :: t :: rest else t :: insert_by_x s rest

/-- `sorted(stations, key=lambda s: s["x"])`: a stable sort by x. -/
def sort_by_x (stations : List Station) : List Station :=
  stations.foldl (fun acc s => insert_by_x s acc) []

/-- Stable insertion step for the y key. -/
def insert_by_y (s : Station) : List Station → List Station
  | [] => [s]
  | t :: rest => if s.y < t.y then s :: t :: rest else t :: insert_by_y s rest

/-- `sorted(stations, key=lambda s: s["y"])`: a stable sort by y. -/
def sort_by_y (stations : List Station) : List Station :=
  stations.foldl (fun acc s => insert_by_y s acc) []

/-- `CityBuilder._create_axial_routes`. -/
def create_axial_routes (stations : List Station) : List (List Station) :=
  if stations.length < 3 then [order_stations_by_distance stations]
  else
    let ew := every_other (sort_by_x stations)
    let ns := every_other ((sort_by_y stations).drop 1)
    (if 2 ≤ ew.length then [ew] else []) ++ (if 2 ≤ ns.length then [ns] else [])

/-- `CityBuilder._create_linear_routes`. -/
def create_linear_routes (stations : List Station) : List (List Station) :=
  if stations.length < 2 then []
  else
    let num_routes := min 2 (max 1 (stations.length / 3))
    let spr := stations.length / num_routes
    (List.range num_routes).foldl (fun acc i =>
      let route_stations := (stations.drop (i * spr)).take (spr + 2)
      if 2 ≤ route_stations.length then
        acc ++ [order_stations_by_distance route_stations]
      else acc) []

/-- `CityBuilder._create_connecting_routes`. -/
def create_connecting_routes (stations : List Station) : List (List Station) :=
  if stations.length < 2 then []
  else
    let num_routes := min 3 (max 1 (stations.length / 4))
    let spr := max 3 (stations.length / num_routes)
    (List.range num_routes).foldl (fun acc i =>
      let selected := (stations.drop (i * stations.length / num_routes)).take spr
      if 2 ≤ selected.length then acc ++ [order_stations_by_distance selected]
      else acc) []

/-- `CityBuilder._create_realistic_routes`. -/
def create_realistic_routes (stations : List Station) (mode : String) :
    List (List Station) :=
  if stations.length < 2 then []
  else if mode = "metro" then create_axial_routes stations
  else if mode = "tram" then create_linear_routes stations
  else create_connecting_routes stations

/-- `CityBuilder._get_route_color`. -/
def get_route_color (mode : String) (route_num : Nat) : String :=
  let mode_colors :=
    if mode = "metro" then ["#FF0000", "#00FF00", "#0000FF"]
    else if mode = "tram" then ["#FFA500", "#800080", "#008080"]
    else if mode = "bus" then ["#FFD700", "#FF69B4", "#32CD32"]
    else ["#000000"]
  mode_colors.getD (route_num % mode_colors.length) "#000000"

/-- Insertion step of the `stations_by_type` grouping dict. -/
def add_to_type_groups (key : String) (s : Station) :
    List (String × List Station) → List (String × List Station)
  | [] => [(key, [s])]
  | (k, grp) :: rest =>
    if k = key then (k, grp ++ [s]) :: rest else (k, grp) :: add_to_type_groups key s rest

/-- `stations_by_type`: stations grouped by mode, insertion-ordered. -/
def stations_by_type (stations : List Station) : List (String × List Station) :=
  stations.foldl (fun acc s => add_to_type_groups s.type s acc) []

/-- `f"route_{route_id}"`. -/
def mkRouteId (n : Nat) : String := "route_" ++ natToString n

/-- The `for i, route_stations in enumerate(routes_for_mode)` loop: keep the
candidates with at least two stations, numbering kept routes with the global
`route_id` counter and coloring by the enumerate index. -/
def mode_routes_loop (mode : String) :
    List (List Station) → Nat → Nat → List Route → List Route × Nat
  | [], _, rid, acc => (acc, rid)
  | rs :: rest, i, rid, acc =>
    if 2 ≤ rs.length then
      mode_routes_loop mode rest (i + 1) (rid + 1)
        (acc ++ [⟨mkRouteId rid, mode, rs.map Station.id, get_route_color mode i⟩])
    else mode_routes_loop mode rest (i + 1) rid acc

/-- `CityBuilder._generate_routes`. -/
def generate_routes (stations : List Station) : List Route :=
  ((stations_by_type stations).foldl (fun st mg =>
    if mg.2.length < 2 then st
    else mode_routes_loop mg.1 (create_realistic_routes mg.2 mg.1) 0 st.2 st.1)
    (([] : List Route), 0)).1

/-- `CityBuilder.generate_random_city` for one injected RNG stream read from
position `p`; the ambient-random original is this function with the global
RNG state passed in. -/
def generate_random_city (gs : Int) (g : Rng) (p : Nat) : Option CityModel :=
  match generate_zones gs g p with
  | none => none
  | some (zones, p1) =>
    match generate_stations gs g p1 with
    | none => none
    | some (stations, _) =>
      let mc := generate_connections stations
      some ⟨gs, zones, mc.1, mc.2, generate_routes mc.1⟩

/-! ### Claim-support definitions -/

/-- Two connection records carry the same unordered id pair. -/
def same_pair (c d : Connection) : Prop :=
  (c.«from» = d.«from» ∧ c.«to» = d.«to») ∨ (c.«from» = d.«to» ∧ c.«to» = d.«from»)

instance (c d : Connection) : Decidable (same_pair c d) := by
  unfold same_pair
  infer_instance

/-- One undirected adjacency step over a connection list (the edge relation of
the `defaultdict(set)` graph the source builds). -/
def adj (conns : List Connection) (a b : String) : Prop :=
  ∃ c ∈ conns, (c.«from» = a ∧ c.«to» = b) ∨ (c.«from» = b ∧ c.«to» = a)

/-- Reachability over the undirected connection graph. -/
def reach (conns : List Connection) : String → String → Prop :=
  Relation.ReflTransGen (adj conns)

/-- The id list of a station list. -/
def station_ids (stations : List Station) : List String := stations.map Station.id

/-- The nearest-neighbor chain property of claim C7: each emitted station is a
member of the remaining set at minimal Manhattan distance from the previously
appended one, and is removed from the remaining set. -/
inductive NNChain : Station → List Station → List Station → Prop
  | nil (current : Station) : NNChain current [] []
  | cons (current : Station) (remaining : List Station) (s : Station) (out : List Station) :
      s ∈ remaining →
      (∀ t ∈ remaining, manhattan current s ≤ manhattan current t) →
      NNChain s (remaining.erase s) out →
      NNChain current remaining (s :: out)

/-- Raw draws of the concrete grid-size-3 generation run used by several
counterexamples: three metros at (0,0), (0,2), (2,0); trams co-located on all
three metros plus a fresh tram at (1,1); five buses, the first two both at
(2,2). -/
def cexVals : List Nat :=
  [1, 1, 1, 1, 1, 1,
   0, 0, 0, 2, 2, 0,
   0, 0, 0, 1, 1,
   999, 2, 2, 999, 2, 2, 999, 0, 1, 999, 1, 0, 999, 1, 2]

/-- The stream reading `cexVals` (0 beyond the end). -/
def cexStream : Rng := fun n => cexVals.getD n 0

/-- The all-zero stream. -/
def zeroStream : Rng := fun _ => 0

/-- Stream driving the `find_good_position` exhaustion counterexample: the 50
checked attempts all sample (0,0); the post-loop unchecked draw samples (2,2). -/
def fgpStream : Rng := fun n => if n < 100 then 0 else 2

/-- Two stations handed to `_order_stations_by_distance` with the leftmost one
second: the length-2 early return keeps the input order. -/
def c7pair : List Station :=
  [⟨"s0", 5, 0, "bus", false⟩, ⟨"s1", 0, 0, "tram", false⟩]

/-- Three concrete stations exercising both halves of the walking-pass
analysis: a co-located metro/tram pair at (0,0) and a bus at (2,0). -/
def c10sts : List Station :=
  [⟨"station_0", 0, 0, "metro", false⟩,
   ⟨"station_1", 0, 0, "tram", false⟩,
   ⟨"station_2", 2, 0, "bus", false⟩]

/-! ### Theorems -/

theorem cluster_size_of_nonpos (gs : Int) (hgs : gs ≤ 0) : cluster_size gs = 2 := by
  unfold cluster_size
  have : gs / 3 ≤ 2 := by omega
  exact max_eq_left this

/-- Claim C5: generation is deterministic in its parameters. The source reads
the ambient `random` state; modelling that state as an explicit stream injected
at call time, two runs with the same grid size and the same stream (the stream
a given seed determines) produce bit-identical CityModels. -/
theorem C5_determinism (gs : Int) (g1 g2 : Rng) (p : Nat) (h : ∀ n, g1 n = g2 n) :
    generate_random_city gs g1 p = generate_random_city gs g2 p := by
  have hg : g1 = g2 := funext h
  rw [hg]

/-- Witness for C5 at a concrete input. -/
theorem C5_determinism_witness :
    (∀ n, cexStream n = cexStream n) ∧
      generate_random_city 3 cexStream 0 = generate_random_city 3 cexStream 0 :=
  ⟨fun _ => rfl, C5_determinism 3 cexStream cexStream 0 (fun _ => rfl)⟩

/-- Claim C8: for `gridSize ≤ 0` generation rejects the input: the very first
`randint` of the zone pass sees the empty range
`[cluster_size // 2, gridSize - cluster_size // 2 - 1]` and raises
`ValueError` (modelled as `none`), so no partial model is ever produced. The
mode/category lists are hardcoded non-empty constants, so the empty-list case
of the claim cannot arise. -/
theorem C8_degenerate_input (gs : Int) (g : Rng) (p : Nat) (hgs : gs ≤ 0) :
    generate_random_city gs g p = none := by
  have hran : randint (cluster_size gs / 2) (gs - cluster_size gs / 2 - 1) g p = none := by
    rw [cluster_size_of_nonpos gs hgs]
    unfold randint
    rw [if_pos (by omega)]
  unfold generate_random_city generate_zones zone_types cluster_centers_loop
  rw [hran]

/-- Witness for C8 at a concrete input. -/
theorem C8_degenerate_input_witness :
    (0 : Int) ≤ 0 ∧ generate_random_city 0 zeroStream 0 = none :=
  ⟨le_refl 0, C8_degenerate_input 0 zeroStream 0 (le_refl 0)⟩

theorem randint_grid (gs : Int) (g : Rng) (p : Nat) (hgs : 1 ≤ gs) :
    randint 0 (gs - 1) g p = some ((g p : Int) % gs, p + 1) := by
  unfold randint
  rw [if_neg (by omega)]
  have h : gs - 1 - 0 + 1 = gs := by ring
  rw [h]
  norm_num

theorem fgp_aux_exhaust (gs : Int) (existing : List (Int × Int)) (min_dist : Int)
    (g : Rng) (hgs : 1 ≤ gs) :
    ∀ (a p : Nat),
      (∀ k < a, is_too_close ((g (p + 2 * k) : Int) % gs) ((g (p + 2 * k + 1) : Int) % gs)
        existing min_dist = true) →
      find_good_position_aux gs existing min_dist g a p =
        some ((((g (p + 2 * a) : Int) % gs), ((g (p + 2 * a + 1) : Int) % gs)), p + 2 * a + 2) := by
  intro a
  induction a with
  | zero =>
    intro p _
    unfold find_good_position_aux
    simp only [randint_grid, hgs]
    norm_num
  | succ a ih =>
    intro p hfail
    unfold find_good_position_aux
    simp only [randint_grid, hgs]
    have h0 := hfail 0 (by omega)
    simp only [Nat.mul_zero, Nat.add_zero] at h0
    simp only [h0, if_pos]
    have := ih (p + 1 + 1) (fun k hk => by
      have e2 : p + 1 + 1 + 2 * k + 1 = p + 2 * (k + 1) + 1 := by omega
      have e1 : p + 1 + 1 + 2 * k = p + 2 * (k + 1) := by omega
      rw [e2, e1]
      exact hfail (k + 1) (by omega))
    rw [this]
    have e3 : p + 1 + 1 + 2 * a = p + 2 * (a + 1) := by omega
    rw [e3]

/-- Claim C6 (amended): when all 50 checked attempts of `find_good_position`
sample a too-close cell, the procedure does not fail, but the returned cell is
one additional fresh, unchecked sample (stream positions 100 and 101 past the
start), not the 50th checked sample. -/
theorem C6_amended (gs : Int) (existing : List (Int × Int)) (min_dist : Int)
    (g : Rng) (p : Nat) (hgs : 1 ≤ gs)
    (hfail : ∀ k < 50, is_too_close ((g (p + 2 * k) : Int) % gs) ((g (p + 2 * k + 1) : Int) % gs)
      existing min_dist = true) :
    find_good_position gs existing min_dist g p =
      some ((((g (p + 100) : Int) % gs), ((g (p + 101) : Int) % gs)), p + 102) := by
  unfold find_good_position
  rw [fgp_aux_exhaust gs existing min_dist g hgs 50 p hfail]

/-- Witness for the amended C6 at a concrete exhausting input. -/
theorem C6_amended_witness :
    ((1 : Int) ≤ 3 ∧
      ∀ k < 50, is_too_close ((fgpStream (0 + 2 * k) : Int) % 3)
        ((fgpStream (0 + 2 * k + 1) : Int) % 3) [(1, 1)] 5 = true) ∧
    find_good_position 3 [(1, 1)] 5 fgpStream 0 =
      some ((((fgpStream (0 + 100) : Int) % 3), ((fgpStream (0 + 101) : Int) % 3)), 0 + 102) :=
  ⟨⟨by decide, by decide⟩, C6_amended 3 [(1, 1)] 5 fgpStream 0 (by decide) (by decide)⟩

/-- Counterexample to claim C6 as stated: on the stream `fgpStream` all 50
checked attempts sample the too-close cell (0,0) — in particular the 50th
checked sample (stream positions 98 and 99) is (0,0) — yet the procedure
returns (2,2), a fresh 51st sample, not the last checked one. -/
theorem C6_counterexample :
    (∀ k < 50, is_too_close ((fgpStream (2 * k) : Int) % 3) ((fgpStream (2 * k + 1) : Int) % 3)
      [(1, 1)] 5 = true) ∧
    ((fgpStream 98 : Int) % 3, (fgpStream 99 : Int) % 3) = ((0 : Int), (0 : Int)) ∧
    find_good_position 3 [(1, 1)] 5 fgpStream 0 = some (((2 : Int), (2 : Int)), 102) ∧
    (((2 : Int), (2 : Int)) : Int × Int) ≠ ((0 : Int), (0 : Int)) := by
  decide

theorem foldl_min_by (f : Station → Int) :
    ∀ (l : List Station) (a : Station),
      (l.foldl (fun m t => if f t < f m then t else m) a) ∈ a :: l ∧
      ∀ t ∈ a :: l, f (l.foldl (fun m t => if f t < f m then t else m) a) ≤ f t := by
  intro l
  induction l with
  | nil =>
    intro a
    refine ⟨by simp, ?_⟩
    intro t ht
    simp only [List.foldl_nil]
    simp only [List.mem_singleton] at ht
    rw [ht]
  | cons b bs ih =>
    intro a
    by_cases hb : f b < f a
    · simp only [List.foldl_cons, if_pos hb]
      obtain ⟨h1, h2⟩ := ih b
      refine ⟨List.mem_cons_of_mem a h1, ?_⟩
      intro t ht
      rcases List.mem_cons.mp ht with h | h
      · rw [h]
        calc f (List.foldl (fun m t => if f t < f m then t else m) b bs) ≤ f b :=
              h2 b (List.mem_cons_self b bs)
          _ ≤ f a := le_of_lt hb
      · exact h2 t h
    · simp only [List.foldl_cons, if_neg hb]
      obtain ⟨h1, h2⟩ := ih a
      refine ⟨?_, ?_⟩
      · rcases List.mem_cons.mp h1 with h | h
        · rw [h]
          exact List.mem_cons_self a (b :: bs)
        · exact List.mem_cons_of_mem a (List.mem_cons_of_mem b h)
      · intro t ht
        rcases List.mem_cons.mp ht with h | h
        · rw [h]
          exact h2 a (List.mem_cons_self a bs)
        · rcases List.mem_cons.mp h with h' | h'
          · rw [h']
            calc f (List.foldl (fun m t => if f t < f m then t else m) a bs) ≤ f a :=
                  h2 a (List.mem_cons_self a bs)
              _ ≤ f b := le_of_not_lt hb
          · exact h2 t (List.mem_cons_of_mem a h')

theorem min_by_x_spec (stations : List Station) (m : Station)
    (h : min_by_x stations = some m) : m ∈ stations ∧ ∀ s ∈ stations, m.x ≤ s.x := by
  match stations with
  | [] => simp [min_by_x] at h
  | s :: rest =>
    unfold min_by_x at h
    obtain ⟨h1, h2⟩ := foldl_min_by (fun t => t.x) rest s
    injection h with h
    rw [← h]
    exact ⟨h1, h2⟩

theorem nearest_to_spec (current : Station) (stations : List Station) (m : Station)
    (h : nearest_to current stations = some m) :
    m ∈ stations ∧ ∀ s ∈ stations, manhattan current m ≤ manhattan current s := by
  match stations with
  | [] => simp [nearest_to] at h
  | s :: rest =>
    unfold nearest_to at h
    obtain ⟨h1, h2⟩ := foldl_min_by (fun t => manhattan current t) rest s
    injection h with h
    rw [← h]
    exact ⟨h1, h2⟩

theorem order_loop_spec :
    ∀ (fuel : Nat) (current : Station) (remaining : List Station),
      remaining.length = fuel →
      NNChain current remaining (order_loop fuel current remaining) ∧
      (order_loop fuel current remaining).Perm remaining := by
  intro fuel
  induction fuel with
  | zero =>
    intro c r hr
    have : r = [] := List.eq_nil_of_length_eq_zero hr
    subst this
    exact ⟨NNChain.nil c, by simp [order_loop]⟩
  | succ n ih =>
    intro c r hr
    match r, hr with
    | s :: rest, hr =>
      have hne : nearest_to c (s :: rest) = some ((rest.foldl (fun m t =>
          if manhattan c t < manhattan c m then t else m) s)) := rfl
      obtain ⟨hmem, hmin⟩ := nearest_to_spec c (s :: rest) _ hne
      have hlen : ((s :: rest).erase (rest.foldl (fun m t =>
          if manhattan c t < manhattan c m then t else m) s)).length = n := by
        rw [List.length_erase_of_mem hmem, hr]
        omega
      obtain ⟨hchain, hperm⟩ := ih _ _ hlen
      have hunf : order_loop (n + 1) c (s :: rest) = (rest.foldl (fun m t =>
          if manhattan c t < manhattan c m then t else m) s) ::
            order_loop n (rest.foldl (fun m t =>
              if manhattan c t < manhattan c m then t else m) s)
              ((s :: rest).erase (rest.foldl (fun m t =>
                if manhattan c t < manhattan c m then t else m) s)) := by
        simp only [order_loop]
        rw [hne]
      rw [hunf]
      refine ⟨NNChain.cons c (s :: rest) _ _ hmem hmin hchain, ?_⟩
      exact (hperm.cons _).trans (List.perm_cons_erase hmem).symm

theorem filter_ne_eq_erase (l : List Station) (a : Station) (hnd : l.Nodup) :
    l.filter (fun t => decide (t ≠ a)) = l.erase a := by
  rw [List.Nodup.erase_eq_filter hnd]
  apply List.filter_congr
  intro x _
  simp only [bne, decide_not]
  rfl

/-- Claim C7 (amended): for a set of at least three pairwise-distinct stations,
the output of `_order_stations_by_distance` starts with a leftmost station and
then repeatedly appends a remaining station of minimal Manhattan distance to
the previously appended one, removing it from the remaining set, and uses every
station exactly once. For at most two stations the procedure instead returns
the input order unchanged, so the leftmost-first property can fail there. -/
theorem C7_amended (stations : List Station) (h3 : 3 ≤ stations.length)
    (hnd : stations.Nodup) :
    ∃ m rest, order_stations_by_distance stations = m :: rest ∧
      m ∈ stations ∧ (∀ s ∈ stations, m.x ≤ s.x) ∧
      (m :: rest).Perm stations ∧
      NNChain m (stations.filter (fun s => decide (s ≠ m))) rest := by
  match stations, h3, hnd with
  | s :: srest, h3, hnd =>
    have hmbx : min_by_x (s :: srest) = some (srest.foldl (fun m t =>
        if t.x < m.x then t else m) s) := rfl
    obtain ⟨hmem, hmin⟩ := min_by_x_spec (s :: srest) _ hmbx
    have hord : order_stations_by_distance (s :: srest) =
        (srest.foldl (fun m t => if t.x < m.x then t else m) s) ::
          order_loop ((s :: srest).filter (fun t => decide (t ≠ srest.foldl (fun m t =>
              if t.x < m.x then t else m) s))).length
            (srest.foldl (fun m t => if t.x < m.x then t else m) s)
            ((s :: srest).filter (fun t => decide (t ≠ srest.foldl (fun m t =>
              if t.x < m.x then t else m) s))) := by
      unfold order_stations_by_distance
      rw [if_neg (by omega), hmbx]
    generalize hM : (srest.foldl (fun m t => if t.x < m.x then t else m) s) = mstar at hord hmem hmin
    refine ⟨mstar, _, hord, hmem, hmin, ?_, ?_⟩
    · have hfe : (s :: srest).filter (fun t => decide (t ≠ mstar)) =
          (s :: srest).erase mstar := filter_ne_eq_erase _ _ hnd
      rw [hfe]
      obtain ⟨_, hperm⟩ := order_loop_spec ((s :: srest).erase mstar).length mstar
        ((s :: srest).erase mstar) rfl
      exact (hperm.cons mstar).trans (List.perm_cons_erase hmem).symm
    · obtain ⟨hchain, _⟩ := order_loop_spec
        ((s :: srest).filter (fun t => decide (t ≠ mstar))).length mstar
        ((s :: srest).filter (fun t => decide (t ≠ mstar))) rfl
      exact hchain

/-- Counterexample to claim C7 as stated: on a two-station input whose second
station is strictly more leftward, `_order_stations_by_distance` takes its
`len(stations) <= 2` early return and emits the input order, so the first
output station is not a leftmost one. -/
theorem C7_counterexample :
    (order_stations_by_distance c7pair).head? = some ⟨"s0", 5, 0, "bus", false⟩ ∧
    (⟨"s1", 0, 0, "tram", false⟩ : Station) ∈ c7pair ∧
    ¬ ((5 : Int) ≤ 0) := by
  decide

/-- Witness for the amended C7 at a concrete three-station input. -/
theorem C7_amended_witness :
    ((3 ≤ ([⟨"a", 3, 0, "bus", false⟩, ⟨"b", 1, 1, "bus", false⟩,
        ⟨"c", 0, 2, "bus", false⟩] : List Station).length) ∧
      ([⟨"a", 3, 0, "bus", false⟩, ⟨"b", 1, 1, "bus", false⟩,
        ⟨"c", 0, 2, "bus", false⟩] : List Station).Nodup) ∧
    ∃ m rest, order_stations_by_distance [⟨"a", 3, 0, "bus", false⟩, ⟨"b", 1, 1, "bus", false⟩,
        ⟨"c", 0, 2, "bus", false⟩] = m :: rest ∧
      m ∈ ([⟨"a", 3, 0, "bus", false⟩, ⟨"b", 1, 1, "bus", false⟩,
        ⟨"c", 0, 2, "bus", false⟩] : List Station) ∧
      (∀ s ∈ ([⟨"a", 3, 0, "bus", false⟩, ⟨"b", 1, 1, "bus", false⟩,
        ⟨"c", 0, 2, "bus", false⟩] : List Station), m.x ≤ s.x) ∧
      (m :: rest).Perm [⟨"a", 3, 0, "bus", false⟩, ⟨"b", 1, 1, "bus", false⟩,
        ⟨"c", 0, 2, "bus", false⟩] ∧
      NNChain m (([⟨"a", 3, 0, "bus", false⟩, ⟨"b", 1, 1, "bus", false⟩,
        ⟨"c", 0, 2, "bus", false⟩] : List Station).filter (fun s => decide (s ≠ m))) rest :=
  ⟨⟨by decide, by decide⟩,
    C7_amended [⟨"a", 3, 0, "bus", false⟩, ⟨"b", 1, 1, "bus", false⟩,
      ⟨"c", 0, 2, "bus", false⟩] (by decide) (by decide)⟩

theorem cluster_randint_ok (gs : Int) (hgs : 3 ≤ gs) :
    cluster_size gs / 2 ≤ gs - cluster_size gs / 2 - 1 := by
  unfold cluster_size
  rcases max_choice 2 (gs / 3) with hc | hc <;> rw [hc] <;> omega

theorem cluster_centers_loop_ok (gs : Int) (hgs : 3 ≤ gs) (g : Rng) :
    ∀ (types : List String) (grid : GridMap) (p : Nat),
      ∃ grid2 p2, cluster_centers_loop gs g types grid p = some (grid2, p2) := by
  intro types
  induction types with
  | nil =>
    intro grid p
    exact ⟨grid, p, rfl⟩
  | cons zt rest ih =>
    intro grid p
    have hcc := cluster_randint_ok gs hgs
    have hr1 : ∀ q, randint (cluster_size gs / 2) (gs - cluster_size gs / 2 - 1) g q =
        some (cluster_size gs / 2 +
          (g q : Int) % (gs - cluster_size gs / 2 - 1 - cluster_size gs / 2 + 1), q + 1) := by
      intro q
      unfold randint
      rw [if_neg (by omega)]
    unfold cluster_centers_loop
    simp only [hr1]
    exact ih _ _

theorem zone_fill_loop_spec (g : Rng) :
    ∀ (cells : List (Int × Int)) (grid : GridMap) (acc : List Zone) (p : Nat),
      ∃ zs p2, zone_fill_loop g cells grid acc p = some (zs, p2) ∧
        zs.map (fun z => (z.x, z.y)) = acc.map (fun z => (z.x, z.y)) ++ cells := by
  intro cells
  induction cells with
  | nil =>
    intro grid acc p
    exact ⟨acc, p, rfl, by simp⟩
  | cons c rest ih =>
    intro grid acc p
    match c with
    | (x, y) =>
      unfold zone_fill_loop
      match hg : gridGet grid (x, y) with
      | some t =>
        obtain ⟨zs, p2, hz, hmap⟩ := ih grid (acc ++ [⟨x, y, t⟩]) p
        refine ⟨zs, p2, hz, ?_⟩
        rw [hmap]
        simp
      | none =>
        have hchoice : random_choice zone_types g p =
            some (zone_types.get ⟨g p % zone_types.length, Nat.mod_lt _ (by decide)⟩, p + 1) := by
          unfold random_choice
          rw [dif_neg (by decide)]
        rw [hchoice]
        obtain ⟨zs, p2, hz, hmap⟩ := ih (gridSet grid (x, y) _)
          (acc ++ [⟨x, y, zone_types.get ⟨g p % zone_types.length, Nat.mod_lt _ (by decide)⟩⟩])
          (p + 1)
        refine ⟨zs, p2, hz, ?_⟩
        rw [hmap]
        simp

theorem mem_intRange (lo hi a : Int) : a ∈ intRange lo hi ↔ lo ≤ a ∧ a < hi := by
  unfold intRange
  simp only [List.mem_map, List.mem_range]
  constructor
  · rintro ⟨k, hk, rfl⟩
    omega
  · intro h
    obtain ⟨h1, h2⟩ := h
    refine ⟨(a - lo).toNat, ?_, ?_⟩ <;> omega

theorem intRange_nodup (lo hi : Int) : (intRange lo hi).Nodup := by
  unfold intRange
  apply List.Nodup.map
  · intro a b hab
    simp only at hab
    omega
  · exact List.nodup_range _

theorem intRange_length (lo hi : Int) : (intRange lo hi).length = (hi - lo).toNat := by
  unfold intRange
  rw [List.length_map, List.length_range]

theorem grid_cells_eq_product (gs : Int) :
    grid_cells gs = (intRange 0 gs).product (intRange 0 gs) := rfl

theorem grid_cells_nodup (gs : Int) : (grid_cells gs).Nodup := by
  rw [grid_cells_eq_product]
  exact (intRange_nodup 0 gs).product (intRange_nodup 0 gs)

theorem mem_grid_cells (gs : Int) (x y : Int) :
    (x, y) ∈ grid_cells gs ↔ 0 ≤ x ∧ x < gs ∧ 0 ≤ y ∧ y < gs := by
  rw [grid_cells_eq_product]
  rw [List.pair_mem_product]
  rw [mem_intRange, mem_intRange]
  tauto

theorem grid_cells_length (gs : Int) : (grid_cells gs).length = gs.toNat * gs.toNat := by
  unfold grid_cells
  rw [List.length_flatMap]
  have : (List.map (List.length ∘ fun x => List.map (fun y => (x, y)) (intRange 0 gs))
      (intRange 0 gs)) = List.map (fun _ => gs.toNat) (intRange 0 gs) := by
    apply List.map_congr_left
    intro a _
    simp [intRange_length]
  rw [this, List.map_const', List.sum_replicate, intRange_length, smul_eq_mul, Int.sub_zero]

theorem countP_eq_one_of_nodup_mem {α : Type} [DecidableEq α] (l : List α) (a : α)
    (hnd : l.Nodup) (hm : a ∈ l) : l.countP (fun b => decide (b = a)) = 1 := by
  have h := List.count_eq_one_of_mem hnd hm
  rw [List.count_eq_countP] at h
  exact h

theorem coords_beq (z : Zone) (x y : Int) :
    ((fun zp : Int × Int => decide (zp = (x, y))) ∘ (fun z : Zone => (z.x, z.y))) z
      = decide (z.x = x ∧ z.y = y) := by
  simp only [Function.comp_apply]
  rw [Bool.eq_iff_iff]
  simp [Prod.ext_iff]

/-- Claim C4 (amended): for every `gridSize ≥ 3` zone generation succeeds and
returns exactly `gridSize²` zone entries, one per distinct in-range cell, each
carrying one category. For `gridSize ∈ {1, 2}` the claim fails: the cluster
center `randint` range is empty and generation raises `ValueError`. -/
theorem C4_amended (gs : Int) (g : Rng) (p : Nat) (hgs : 3 ≤ gs) :
    ∃ zs p2, generate_zones gs g p = some (zs, p2) ∧
      zs.length = gs.toNat * gs.toNat ∧
      (∀ z ∈ zs, 0 ≤ z.x ∧ z.x < gs ∧ 0 ≤ z.y ∧ z.y < gs) ∧
      (∀ x y : Int, 0 ≤ x → x < gs → 0 ≤ y → y < gs →
        (zs.filter (fun z => decide (z.x = x ∧ z.y = y))).length = 1) := by
  obtain ⟨grid2, p1, hcl⟩ := cluster_centers_loop_ok gs hgs g zone_types emptyGrid p
  obtain ⟨zs, p2, hz, hmap⟩ := zone_fill_loop_spec g (grid_cells gs) grid2 [] p1
  simp only [List.map_nil, List.nil_append] at hmap
  refine ⟨zs, p2, ?_, ?_, ?_, ?_⟩
  · unfold generate_zones
    rw [hcl]
    exact hz
  · have hlen := congrArg List.length hmap
    rw [List.length_map, grid_cells_length gs] at hlen
    exact hlen
  · intro z hz2
    have hmem : (z.x, z.y) ∈ grid_cells gs := by
      rw [← hmap]
      exact List.mem_map_of_mem _ hz2
    exact (mem_grid_cells gs z.x z.y).mp hmem
  · intro x y hx1 hx2 hy1 hy2
    have hcount : (zs.map (fun z => (z.x, z.y))).countP
        (fun b => decide (b = (x, y))) = 1 := by
      rw [hmap]
      exact countP_eq_one_of_nodup_mem _ _ (grid_cells_nodup gs)
        ((mem_grid_cells gs x y).mpr ⟨hx1, hx2, hy1, hy2⟩)
    rw [List.countP_map] at hcount
    rw [← List.countP_eq_length_filter, ← hcount]
    apply List.countP_congr
    intro z _
    rw [coords_beq]

/-- Witness for the amended C4 at a concrete input. -/
theorem C4_amended_witness :
    (3 : Int) ≤ 3 ∧
    ∃ zs p2, generate_zones 3 zeroStream 0 = some (zs, p2) ∧
      zs.length = (3 : Int).toNat * (3 : Int).toNat ∧
      (∀ z ∈ zs, 0 ≤ z.x ∧ z.x < 3 ∧ 0 ≤ z.y ∧ z.y < 3) ∧
      (∀ x y : Int, 0 ≤ x → x < 3 → 0 ≤ y → y < 3 →
        (zs.filter (fun z => decide (z.x = x ∧ z.y = y))).length = 1) :=
  ⟨by norm_num, C4_amended 3 zeroStream 0 (by norm_num)⟩

/-- Counterexample to claim C4 as stated: at `gridSize = 1` (which is ≥ 1) the
zone pass raises `ValueError` from `randint(1, -1)` instead of succeeding. -/
theorem C4_counterexample : generate_zones 1 zeroStream 0 = none := by
  decide

theorem order_loop_subset (fuel : Nat) (current : Station) (remaining : List Station) :
    ∀ s ∈ order_loop fuel current remaining, s ∈ remaining := by
  induction fuel generalizing current remaining with
  | zero =>
    intro s hs
    simp [order_loop] at hs
  | succ n ih =>
    intro s hs
    unfold order_loop at hs
    match hne : nearest_to current remaining with
    | none => rw [hne] at hs; simp at hs
    | some nrst =>
      rw [hne] at hs
      obtain ⟨hmem, _⟩ := nearest_to_spec current remaining nrst hne
      rcases List.mem_cons.mp hs with h | h
      · rw [h]; exact hmem
      · exact (remaining.erase_subset nrst) (ih nrst (remaining.erase nrst) s h)

theorem order_subset (stations : List Station) :
    ∀ s ∈ order_stations_by_distance stations, s ∈ stations := by
  unfold order_stations_by_distance
  by_cases hlen : stations.length ≤ 2
  · rw [if_pos hlen]
    exact fun s hs => hs
  · rw [if_neg hlen]
    match hmb : min_by_x stations with
    | none => exact fun s hs => hs
    | some m =>
      obtain ⟨hmem, _⟩ := min_by_x_spec stations m hmb
      intro s hs
      rcases List.mem_cons.mp hs with h | h
      · rw [h]; exact hmem
      · exact List.mem_of_mem_filter
          (order_loop_subset _ m (stations.filter (fun s => decide (s ≠ m))) s h)

theorem every_other_subset {α : Type} : ∀ (l : List α), ∀ a ∈ every_other l, a ∈ l := by
  intro l
  induction l using every_other.induct with
  | case1 => intro a ha; simp [every_other] at ha
  | case2 x => intro a ha; simpa [every_other] using ha
  | case3 x y rest ih =>
    intro a ha
    unfold every_other at ha
    rcases List.mem_cons.mp ha with h | h
    · rw [h]; exact List.mem_cons_self _ _
    · exact List.mem_cons_of_mem x (List.mem_cons_of_mem y (ih a h))

theorem mem_insert_by_x (s a : Station) :
    ∀ (l : List Station), a ∈ insert_by_x s l → a = s ∨ a ∈ l := by
  intro l
  induction l with
  | nil => intro h; simpa [insert_by_x] using h
  | cons t rest ih =>
    intro h
    unfold insert_by_x at h
    split at h
    · rcases List.mem_cons.mp h with h2 | h2
      · exact Or.inl h2
      · exact Or.inr h2
    · rcases List.mem_cons.mp h with h2 | h2
      · exact Or.inr (h2 ▸ List.mem_cons_self t rest)
      · rcases ih h2 with h3 | h3
        · exact Or.inl h3
        · exact Or.inr (List.mem_cons_of_mem t h3)

theorem mem_insert_by_y (s a : Station) :
    ∀ (l : List Station), a ∈ insert_by_y s l → a = s ∨ a ∈ l := by
  intro l
  induction l with
  | nil => intro h; simpa [insert_by_y] using h
  | cons t rest ih =>
    intro h
    unfold insert_by_y at h
    split at h
    · rcases List.mem_cons.mp h with h2 | h2
      · exact Or.inl h2
      · exact Or.inr h2
    · rcases List.mem_cons.mp h with h2 | h2
      · exact Or.inr (h2 ▸ List.mem_cons_self t rest)
      · rcases ih h2 with h3 | h3
        · exact Or.inl h3
        · exact Or.inr (List.mem_cons_of_mem t h3)

theorem sort_fold_subset_x :
    ∀ (l acc : List Station) (U : List Station),
      (∀ s ∈ l, s ∈ U) → (∀ s ∈ acc, s ∈ U) →
      ∀ s ∈ l.foldl (fun acc s => insert_by_x s acc) acc, s ∈ U := by
  intro l
  induction l with
  | nil => intro acc U _ hacc; exact hacc
  | cons t rest ih =>
    intro acc U hl hacc
    simp only [List.foldl_cons]
    apply ih _ _ (fun s hs => hl s (List.mem_cons_of_mem t hs))
    intro s hs
    rcases mem_insert_by_x t s acc hs with h | h
    · exact h ▸ hl t (List.mem_cons_self t rest)
    · exact hacc s h

theorem sort_fold_subset_y :
    ∀ (l acc : List Station) (U : List Station),
      (∀ s ∈ l, s ∈ U) → (∀ s ∈ acc, s ∈ U) →
      ∀ s ∈ l.foldl (fun acc s => insert_by_y s acc) acc, s ∈ U := by
  intro l
  induction l with
  | nil => intro acc U _ hacc; exact hacc
  | cons t rest ih =>
    intro acc U hl hacc
    simp only [List.foldl_cons]
    apply ih _ _ (fun s hs => hl s (List.mem_cons_of_mem t hs))
    intro s hs
    rcases mem_insert_by_y t s acc hs with h | h
    · exact h ▸ hl t (List.mem_cons_self t rest)
    · exact hacc s h

theorem sort_by_x_subset (stations : List Station) :
    ∀ s ∈ sort_by_x stations, s ∈ stations := by
  unfold sort_by_x
  exact sort_fold_subset_x stations [] stations (fun s hs => hs) (by simp)

theorem sort_by_y_subset (stations : List Station) :
    ∀ s ∈ sort_by_y stations, s ∈ stations := by
  unfold sort_by_y
  exact sort_fold_subset_y stations [] stations (fun s hs => hs) (by simp)

theorem create_axial_routes_subset (stations : List Station) :
    ∀ rs ∈ create_axial_routes stations, ∀ s ∈ rs, s ∈ stations := by
  unfold create_axial_routes
  by_cases hlen : stations.length < 3
  · rw [if_pos hlen]
    intro rs hrs s hs
    simp only [List.mem_singleton] at hrs
    rw [hrs] at hs
    exact order_subset stations s hs
  · rw [if_neg hlen]
    intro rs hrs s hs
    rcases List.mem_append.mp hrs with h | h
    · split at h
      · simp only [List.mem_singleton] at h
        rw [h] at hs
        exact sort_by_x_subset stations s (every_other_subset _ s hs)
      · simp at h
    · split at h
      · simp only [List.mem_singleton] at h
        rw [h] at hs
        exact sort_by_y_subset stations s
          ((List.drop_subset 1 _) (every_other_subset _ s hs))
      · simp at h

theorem slice_routes_foldl_subset (stations : List Station) (f : Nat → List Station)
    (hf : ∀ i, ∀ s ∈ f i, s ∈ stations) :
    ∀ (idx : List Nat) (acc : List (List Station)),
      (∀ rs ∈ acc, ∀ s ∈ rs, s ∈ stations) →
      ∀ rs ∈ idx.foldl (fun acc i =>
          if 2 ≤ (f i).length then acc ++ [order_stations_by_distance (f i)] else acc) acc,
        ∀ s ∈ rs, s ∈ stations := by
  intro idx
  induction idx with
  | nil => intro acc hacc; exact hacc
  | cons i rest ih =>
    intro acc hacc
    simp only [List.foldl_cons]
    by_cases hc : 2 ≤ (f i).length
    · rw [if_pos hc]
      apply ih
      intro rs hrs s hs
      rcases List.mem_append.mp hrs with h | h
      · exact hacc rs h s hs
      · simp only [List.mem_singleton] at h
        rw [h] at hs
        exact hf i s (order_subset (f i) s hs)
    · rw [if_neg hc]
      exact ih acc hacc

theorem create_linear_routes_subset (stations : List Station) :
    ∀ rs ∈ create_linear_routes stations, ∀ s ∈ rs, s ∈ stations := by
  unfold create_linear_routes
  by_cases hlen : stations.length < 2
  · rw [if_pos hlen]
    intro rs hrs
    simp at hrs
  · rw [if_neg hlen]
    exact slice_routes_foldl_subset stations
      (fun i => (stations.drop (i * (stations.length / min 2 (max 1 (stations.length / 3))))).take
        ((stations.length / min 2 (max 1 (stations.length / 3))) + 2))
      (fun i s hs => (List.drop_subset _ _) ((List.take_subset _ _) hs))
      (List.range (min 2 (max 1 (stations.length / 3)))) [] (by simp)

theorem create_connecting_routes_subset (stations : List Station) :
    ∀ rs ∈ create_connecting_routes stations, ∀ s ∈ rs, s ∈ stations := by
  unfold create_connecting_routes
  by_cases hlen : stations.length < 2
  · rw [if_pos hlen]
    intro rs hrs
    simp at hrs
  · rw [if_neg hlen]
    exact slice_routes_foldl_subset stations
      (fun i => (stations.drop (i * stations.length / min 3 (max 1 (stations.length / 4)))).take
        (max 3 (stations.length / min 3 (max 1 (stations.length / 4)))))
      (fun i s hs => (List.drop_subset _ _) ((List.take_subset _ _) hs))
      (List.range (min 3 (max 1 (stations.length / 4)))) [] (by simp)

theorem create_realistic_routes_subset (stations : List Station) (mode : String) :
    ∀ rs ∈ create_realistic_routes stations mode, ∀ s ∈ rs, s ∈ stations := by
  unfold create_realistic_routes
  by_cases h1 : stations.length < 2
  · rw [if_pos h1]
    intro rs hrs
    simp at hrs
  · rw [if_neg h1]
    by_cases h2 : mode = "metro"
    · rw [if_pos h2]
      exact create_axial_routes_subset stations
    · rw [if_neg h2]
      by_cases h3 : mode = "tram"
      · rw [if_pos h3]
        exact create_linear_routes_subset stations
      · rw [if_neg h3]
        exact create_connecting_routes_subset stations

theorem add_to_type_groups_sound (U : List Station) (key : String) (st : Station)
    (hstU : st ∈ U) (hstk : st.type = key) :
    ∀ (acc : List (String × List Station)),
      (∀ kg ∈ acc, ∀ s ∈ kg.2, s ∈ U ∧ s.type = kg.1) →
      ∀ kg ∈ add_to_type_groups key st acc, ∀ s ∈ kg.2, s ∈ U ∧ s.type = kg.1 := by
  intro acc
  induction acc with
  | nil =>
    intro _ kg hkg s hs
    simp only [add_to_type_groups, List.mem_singleton] at hkg
    rw [hkg] at hs ⊢
    simp only [List.mem_singleton] at hs
    rw [hs]
    exact ⟨hstU, hstk⟩
  | cons kg0 rest ih =>
    intro hacc kg hkg s hs
    match kg0 with
    | (k, grp) =>
      unfold add_to_type_groups at hkg
      by_cases hk : k = key
      · rw [if_pos hk] at hkg
        rcases List.mem_cons.mp hkg with h | h
        · rw [h] at hs
          simp only at hs
          rcases List.mem_append.mp hs with h2 | h2
          · have := hacc (k, grp) (List.mem_cons_self _ _) s h2
            rw [h]
            exact this
          · simp only [List.mem_singleton] at h2
            rw [h2, h]
            exact ⟨hstU, by rw [hstk, hk]⟩
        · exact hacc kg (List.mem_cons_of_mem _ h) s hs
      · rw [if_neg hk] at hkg
        rcases List.mem_cons.mp hkg with h | h
        · rw [h] at hs ⊢
          exact hacc (k, grp) (List.mem_cons_self _ _) s hs
        · exact ih (fun kg2 hkg2 => hacc kg2 (List.mem_cons_of_mem _ hkg2)) kg h s hs

theorem type_groups_fold_sound (U : List Station) :
    ∀ (rest : List Station) (acc : List (String × List Station)),
      (∀ s ∈ rest, s ∈ U) →
      (∀ kg ∈ acc, ∀ s ∈ kg.2, s ∈ U ∧ s.type = kg.1) →
      ∀ kg ∈ rest.foldl (fun a s => add_to_type_groups s.type s a) acc,
        ∀ s ∈ kg.2, s ∈ U ∧ s.type = kg.1 := by
  intro rest
  induction rest with
  | nil => intro acc _ hacc; exact hacc
  | cons st rest2 ih =>
    intro acc hrest hacc
    simp only [List.foldl_cons]
    exact ih _ (fun s hs => hrest s (List.mem_cons_of_mem _ hs))
      (add_to_type_groups_sound U st.type st (hrest st (List.mem_cons_self _ _)) rfl acc hacc)

theorem stations_by_type_sound (stations : List Station) :
    ∀ kg ∈ stations_by_type stations, ∀ s ∈ kg.2, s ∈ stations ∧ s.type = kg.1 := by
  unfold stations_by_type
  exact type_groups_fold_sound stations stations [] (fun s hs => hs) (by simp)

theorem mode_routes_loop_sound (stationsU : List Station) (mode : String) :
    ∀ (cands : List (List Station)) (i rid : Nat) (acc : List Route),
      (∀ rs ∈ cands, ∀ s ∈ rs, s ∈ stationsU ∧ s.type = mode) →
      (∀ r ∈ acc, 2 ≤ r.stations.length ∧
        ∀ sid ∈ r.stations, ∃ s ∈ stationsU, s.id = sid ∧ s.type = r.mode) →
      ∀ r ∈ (mode_routes_loop mode cands i rid acc).1,
        2 ≤ r.stations.length ∧
        ∀ sid ∈ r.stations, ∃ s ∈ stationsU, s.id = sid ∧ s.type = r.mode := by
  intro cands
  induction cands with
  | nil => intro i rid acc _ hacc; exact hacc
  | cons rs rest ih =>
    intro i rid acc hcands hacc
    unfold mode_routes_loop
    by_cases hc : 2 ≤ rs.length
    · rw [if_pos hc]
      apply ih _ _ _ (fun rs2 hrs2 => hcands rs2 (List.mem_cons_of_mem _ hrs2))
      intro r hr
      rcases List.mem_append.mp hr with h | h
      · exact hacc r h
      · simp only [List.mem_singleton] at h
        rw [h]
        refine ⟨by simpa using hc, ?_⟩
        intro sid hsid
        simp only [List.mem_map] at hsid
        obtain ⟨s, hs, hsid2⟩ := hsid
        obtain ⟨hsU, hst⟩ := hcands rs (List.mem_cons_self _ _) s hs
        exact ⟨s, hsU, hsid2, hst⟩
    · rw [if_neg hc]
      exact ih _ _ _ (fun rs2 hrs2 => hcands rs2 (List.mem_cons_of_mem _ hrs2)) hacc

theorem routes_fold_sound (stationsU : List Station) :
    ∀ (groups : List (String × List Station)) (st : List Route × Nat),
      (∀ kg ∈ groups, ∀ s ∈ kg.2, s ∈ stationsU ∧ s.type = kg.1) →
      (∀ r ∈ st.1, 2 ≤ r.stations.length ∧
        ∀ sid ∈ r.stations, ∃ s ∈ stationsU, s.id = sid ∧ s.type = r.mode) →
      ∀ r ∈ (groups.foldl (fun st mg =>
          if mg.2.length < 2 then st
          else mode_routes_loop mg.1 (create_realistic_routes mg.2 mg.1) 0 st.2 st.1) st).1,
        2 ≤ r.stations.length ∧
        ∀ sid ∈ r.stations, ∃ s ∈ stationsU, s.id = sid ∧ s.type = r.mode := by
  intro groups
  induction groups with
  | nil => intro st _ hst; exact hst
  | cons mg rest ih =>
    intro st hgroups hst
    simp only [List.foldl_cons]
    by_cases hc : mg.2.length < 2
    · rw [if_pos hc]
      exact ih st (fun kg hkg => hgroups kg (List.mem_cons_of_mem _ hkg)) hst
    · rw [if_neg hc]
      apply ih _ (fun kg hkg => hgroups kg (List.mem_cons_of_mem _ hkg))
      apply mode_routes_loop_sound stationsU mg.1 _ 0 st.2 st.1
      · intro rs hrs s hs
        have hsmem := create_realistic_routes_subset mg.2 mg.1 rs hrs s hs
        exact hgroups mg (List.mem_cons_self _ _) s hsmem
      · exact hst

theorem generate_routes_sound (stations : List Station) :
    ∀ r ∈ generate_routes stations, 2 ≤ r.stations.length ∧
      ∀ sid ∈ r.stations, ∃ s ∈ stations, s.id = sid ∧ s.type = r.mode := by
  unfold generate_routes
  exact routes_fold_sound stations (stations_by_type stations) ([], 0)
    (stations_by_type_sound stations) (by simp)

theorem generate_random_city_inv (gs : Int) (g : Rng) (p : Nat) (m : CityModel)
    (h : generate_random_city gs g p = some m) :
    ∃ sts0 zones p1 p2, generate_zones gs g p = some (zones, p1) ∧
      generate_stations gs g p1 = some (sts0, p2) ∧
      m.stations = (generate_connections sts0).1 ∧
      m.connections = (generate_connections sts0).2 ∧
      m.routes = generate_routes (generate_connections sts0).1 := by
  unfold generate_random_city at h
  split at h
  · exact absurd h (by simp)
  case _ zones p1 heq =>
    split at h
    · exact absurd h (by simp)
    case _ sts0 p2 heq2 =>
      refine ⟨sts0, zones, p1, p2, heq, heq2, ?_, ?_, ?_⟩ <;>
        · injection h with h2
          rw [← h2]

/-- Claim C9: in every generated CityModel, every route has at least two
station ids, every referenced station id exists in the model's station list,
and the referenced station's mode equals the route's mode. -/
theorem C9_route_validity (gs : Int) (g : Rng) (p : Nat) (m : CityModel)
    (h : generate_random_city gs g p = some m) :
    ∀ r ∈ m.routes, 2 ≤ r.stations.length ∧
      ∀ sid ∈ r.stations, ∃ s ∈ m.stations, s.id = sid ∧ s.type = r.mode := by
  obtain ⟨sts0, zones, p1, p2, _, _, hstations, _, hroutes⟩ :=
    generate_random_city_inv gs g p m h
  rw [hroutes, hstations]
  exact generate_routes_sound (generate_connections sts0).1

/-- Witness for C9 on the concrete grid-size-3 generation run. -/
theorem C9_route_validity_witness :
    generate_random_city 3 cexStream 0 =
      some ((generate_random_city 3 cexStream 0).getD ⟨0, [], [], [], []⟩) ∧
    ∀ r ∈ ((generate_random_city 3 cexStream 0).getD ⟨0, [], [], [], []⟩).routes,
      2 ≤ r.stations.length ∧
      ∀ sid ∈ r.stations,
        ∃ s ∈ ((generate_random_city 3 cexStream 0).getD ⟨0, [], [], [], []⟩).stations,
          s.id = sid ∧ s.type = r.mode :=
  ⟨by decide, C9_route_validity 3 cexStream 0 _ (by decide)⟩

theorem natDigitsAux_fuel :
    ∀ (f1 f2 n : Nat), n < f1 → n < f2 → natDigitsAux f1 n = natDigitsAux f2 n := by
  intro f1
  induction f1 with
  | zero => intro f2 n h1; omega
  | succ f1 ih =>
    intro f2 n h1 h2
    match f2, h2 with
    | f2 + 1, h2 =>
      unfold natDigitsAux
      by_cases h10 : n < 10
      · rw [if_pos h10, if_pos h10]
      · rw [if_neg h10, if_neg h10]
        have hd : n / 10 < n := Nat.div_lt_self (by omega) (by omega)
        rw [ih f2 (n / 10) (by omega) (by omega)]

theorem natDigits_eq (n : Nat) :
    natDigits n = if n < 10 then [Nat.digitChar n]
      else natDigits (n / 10) ++ [Nat.digitChar (n % 10)] := by
  unfold natDigits
  by_cases h10 : n < 10
  · rw [if_pos h10]
    unfold natDigitsAux
    rw [if_pos h10]
  · rw [if_neg h10]
    have hd : n / 10 < n := Nat.div_lt_self (by omega) (by omega)
    conv =>
      rw [natDigitsAux]
    rw [if_neg h10]
    rw [natDigitsAux_fuel n (n / 10 + 1) (n / 10) (by omega) (by omega)]

theorem natDigits_ne_nil (n : Nat) : natDigits n ≠ [] := by
  rw [natDigits_eq]
  by_cases h10 : n < 10
  · rw [if_pos h10]
    simp
  · rw [if_neg h10]
    simp

theorem digitChar_inj_lt : ∀ a < 10, ∀ b < 10, Nat.digitChar a = Nat.digitChar b → a = b := by
  decide

theorem append_singleton_inj {α : Type} (l1 l2 : List α) (a b : α)
    (h : l1 ++ [a] = l2 ++ [b]) : l1 = l2 ∧ a = b := by
  have hr := congrArg List.reverse h
  simp only [List.reverse_append, List.reverse_cons, List.reverse_nil, List.nil_append,
    List.singleton_append] at hr
  injection hr with h1 h2
  exact ⟨by rw [← l1.reverse_reverse, h2, l2.reverse_reverse], h1⟩

theorem natDigits_injective : ∀ (m n : Nat), natDigits m = natDigits n → m = n := by
  intro m
  induction m using Nat.strong_induction_on with
  | _ m ih =>
    intro n h
    rw [natDigits_eq m, natDigits_eq n] at h
    by_cases hm : m < 10 <;> by_cases hn : n < 10
    · rw [if_pos hm, if_pos hn] at h
      injection h with h1
      exact digitChar_inj_lt m hm n hn h1
    · rw [if_pos hm, if_neg hn] at h
      have := congrArg List.length h
      simp only [List.length_singleton, List.length_append] at this
      have hne := natDigits_ne_nil (n / 10)
      have : (natDigits (n / 10)).length ≠ 0 := fun h0 => hne (List.eq_nil_of_length_eq_zero h0)
      omega
    · rw [if_neg hm, if_pos hn] at h
      have := congrArg List.length h
      simp only [List.length_singleton, List.length_append] at this
      have hne := natDigits_ne_nil (m / 10)
      have : (natDigits (m / 10)).length ≠ 0 := fun h0 => hne (List.eq_nil_of_length_eq_zero h0)
      omega
    · rw [if_neg hm, if_neg hn] at h
      obtain ⟨h1, h2⟩ := append_singleton_inj _ _ _ _ h
      have hdiv : m / 10 = n / 10 :=
        ih (m / 10) (Nat.div_lt_self (by omega) (by omega)) (n / 10) h1
      have hmod : m % 10 = n % 10 :=
        digitChar_inj_lt (m % 10) (by omega) (n % 10) (by omega) h2
      omega

theorem mkStationId_injective : ∀ (m n : Nat), mkStationId m = mkStationId n → m = n := by
  intro m n h
  unfold mkStationId natToString at h
  have hd := congrArg String.data h
  simp only [String.data_append] at hd
  have hd2 : natDigits m = natDigits n := List.append_cancel_left hd
  exact natDigits_injective m n hd2

theorem ids_invariant_extend (sts : List Station) (st : Station)
    (hid : st.id = mkStationId sts.length) (hinv : sts.map Station.id =
      (List.range sts.length).map mkStationId) :
    (sts ++ [st]).map Station.id = (List.range (sts ++ [st]).length).map mkStationId := by
  rw [List.map_append, hinv, List.length_append, List.length_singleton, List.range_succ,
    List.map_append]
  simp [hid]

theorem metro_loop_inv (gs : Int) (g : Rng) :
    ∀ (n : Nat) (ps : List (Int × Int)) (sts : List Station) (p : Nat)
      (res : List (Int × Int) × List Station × Nat),
      metro_loop gs g n (ps, sts, p) = some res →
      sts.map Station.id = (List.range sts.length).map mkStationId →
      (∀ s ∈ sts, s.is_transfer = false) →
      res.2.1.map Station.id = (List.range res.2.1.length).map mkStationId ∧
      (∀ s ∈ res.2.1, s.is_transfer = false) ∧ res.2.1.length = sts.length + n := by
  intro n
  induction n with
  | zero =>
    intro ps sts p res h hinv htr
    unfold metro_loop at h
    injection h with h
    rw [← h]
    exact ⟨hinv, htr, by simp⟩
  | succ n ih =>
    intro ps sts p res h hinv htr
    unfold metro_loop at h
    split at h
    · exact absurd h (by simp)
    case _ x y p1 heq =>
      have := ih _ _ _ res h (ids_invariant_extend sts _ rfl hinv) ?_
      · obtain ⟨h1, h2, h3⟩ := this
        refine ⟨h1, h2, ?_⟩
        rw [h3]
        simp only [List.length_append, List.length_singleton]
        omega
      · intro s hs
        rcases List.mem_append.mp hs with h4 | h4
        · exact htr s h4
        · simp only [List.mem_singleton] at h4
          rw [h4]

theorem tram_loop_inv (gs : Int) (g : Rng) :
    ∀ (idx : List Nat) (ps : List (Int × Int)) (sts : List Station) (p : Nat)
      (res : List (Int × Int) × List Station × Nat),
      tram_loop gs g idx (ps, sts, p) = some res →
      sts.map Station.id = (List.range sts.length).map mkStationId →
      (∀ s ∈ sts, s.is_transfer = false) →
      res.2.1.map Station.id = (List.range res.2.1.length).map mkStationId ∧
      (∀ s ∈ res.2.1, s.is_transfer = false) ∧ res.2.1.length = sts.length + idx.length := by
  intro idx
  induction idx with
  | nil =>
    intro ps sts p res h hinv htr
    unfold tram_loop at h
    injection h with h
    rw [← h]
    exact ⟨hinv, htr, by simp⟩
  | cons i rest ih =>
    intro ps sts p res h hinv htr
    have htr2 : ∀ (st : Station), st.is_transfer = false →
        ∀ s ∈ sts ++ [st], s.is_transfer = false := by
      intro st hst s hs
      rcases List.mem_append.mp hs with h4 | h4
      · exact htr s h4
      · simp only [List.mem_singleton] at h4
        rw [h4, hst]
    unfold tram_loop at h
    split at h
    · simp only [random_unit] at h
      split at h
      · have := ih _ _ _ res h (ids_invariant_extend sts _ rfl hinv) (htr2 _ rfl)
        obtain ⟨h1, h2, h3⟩ := this
        refine ⟨h1, h2, ?_⟩
        rw [h3]
        simp only [List.length_append, List.length_singleton, List.length_cons, List.length_nil]
        omega
      · split at h
        · exact absurd h (by simp)
        case _ x y p2 heq =>
          have := ih _ _ _ res h (ids_invariant_extend sts _ rfl hinv) (htr2 _ rfl)
          obtain ⟨h1, h2, h3⟩ := this
          refine ⟨h1, h2, ?_⟩
          rw [h3]
          simp only [List.length_append, List.length_singleton, List.length_cons, List.length_nil]
          omega
    · split at h
      · exact absurd h (by simp)
      case _ x y p2 heq =>
        have := ih _ _ _ res h (ids_invariant_extend sts _ rfl hinv) (htr2 _ rfl)
        obtain ⟨h1, h2, h3⟩ := this
        refine ⟨h1, h2, ?_⟩
        rw [h3]
        simp only [List.length_append, List.length_singleton, List.length_cons, List.length_nil]
        omega

theorem bus_loop_inv (gs : Int) (g : Rng) :
    ∀ (idx : List Nat) (ps : List (Int × Int)) (sts : List Station) (p : Nat)
      (res : List (Int × Int) × List Station × Nat),
      bus_loop gs g idx (ps, sts, p) = some res →
      sts.map Station.id = (List.range sts.length).map mkStationId →
      (∀ s ∈ sts, s.is_transfer = false) →
      res.2.1.map Station.id = (List.range res.2.1.length).map mkStationId ∧
      (∀ s ∈ res.2.1, s.is_transfer = false) ∧ res.2.1.length = sts.length + idx.length := by
  intro idx
  induction idx with
  | nil =>
    intro ps sts p res h hinv htr
    unfold bus_loop at h
    injection h with h
    rw [← h]
    exact ⟨hinv, htr, by simp⟩
  | cons i rest ih =>
    intro ps sts p res h hinv htr
    have htr2 : ∀ (st : Station), st.is_transfer = false →
        ∀ s ∈ sts ++ [st], s.is_transfer = false := by
      intro st hst s hs
      rcases List.mem_append.mp hs with h4 | h4
      · exact htr s h4
      · simp only [List.mem_singleton] at h4
        rw [h4, hst]
    unfold bus_loop at h
    split at h
    · simp only [random_unit] at h
      split at h
      · have := ih _ _ _ res h (ids_invariant_extend sts _ rfl hinv) (htr2 _ rfl)
        obtain ⟨h1, h2, h3⟩ := this
        refine ⟨h1, h2, ?_⟩
        rw [h3]
        simp only [List.length_append, List.length_singleton, List.length_cons, List.length_nil]
        omega
      · split at h
        · exact absurd h (by simp)
        case _ x y p2 heq =>
          have := ih _ _ _ res h (ids_invariant_extend sts _ rfl hinv) (htr2 _ rfl)
          obtain ⟨h1, h2, h3⟩ := this
          refine ⟨h1, h2, ?_⟩
          rw [h3]
          simp only [List.length_append, List.length_singleton, List.length_cons, List.length_nil]
          omega
    · split at h
      · exact absurd h (by simp)
      case _ x y p2 heq =>
        have := ih _ _ _ res h (ids_invariant_extend sts _ rfl hinv) (htr2 _ rfl)
        obtain ⟨h1, h2, h3⟩ := this
        refine ⟨h1, h2, ?_⟩
        rw [h3]
        simp only [List.length_append, List.length_singleton, List.length_cons, List.length_nil]
        omega

theorem generate_stations_spec (gs : Int) (g : Rng) (p : Nat) (sts : List Station) (p2 : Nat)
    (h : generate_stations gs g p = some (sts, p2)) :
    sts.map Station.id = (List.range sts.length).map mkStationId ∧
    (∀ s ∈ sts, s.is_transfer = false) ∧ 3 ≤ sts.length := by
  unfold generate_stations at h
  split at h
  · exact absurd h (by simp)
  case _ st1 heq1 =>
    split at h
    · exact absurd h (by simp)
    case _ st2 heq2 =>
      split at h
      · exact absurd h (by simp)
      case _ ps3 sts3 p3 heq3 =>
        injection h with h
        match st1, heq1 with
        | (ps1, sts1, p1), heq1 =>
          obtain ⟨h1a, h1b, h1c⟩ := metro_loop_inv gs g (metro_count gs) [] [] p
            (ps1, sts1, p1) heq1 (by simp) (by simp)
          match st2, heq2 with
          | (ps2m, sts2m, p2m), heq2 =>
            obtain ⟨h2a, h2b, h2c⟩ := tram_loop_inv gs g (List.range (tram_count gs))
              ps1 sts1 p1 (ps2m, sts2m, p2m) heq2 h1a h1b
            obtain ⟨h3a, h3b, h3c⟩ := bus_loop_inv gs g (List.range (bus_count gs))
              ps2m sts2m p2m (ps3, sts3, p3) heq3 h2a h2b
            have hsts : sts3 = sts := by
              injection h with ha hb
            rw [← hsts]
            refine ⟨h3a, h3b, ?_⟩
            simp only at h3c h2c h1c
            have hm : 3 ≤ metro_count gs := le_max_left _ _
            omega

theorem lookup_add_to_groups (key key2 : Int × Int) (s : Station) :
    ∀ (acc : List ((Int × Int) × List Station)),
      lookup_group (add_to_groups key s acc) key2 =
        if key2 = key then lookup_group acc key2 ++ [s] else lookup_group acc key2 := by
  intro acc
  induction acc with
  | nil =>
    by_cases hk : key2 = key
    · rw [if_pos hk]
      have h1 : decide ((key, [s]).1 = key2) = true := by simp [hk]
      simp only [add_to_groups, lookup_group, List.find?, h1, List.nil_append]
    · rw [if_neg hk]
      have h1 : decide ((key, [s]).1 = key2) = false := by
        simp only [decide_eq_false_iff_not]
        exact fun h => hk h.symm
      simp only [add_to_groups, lookup_group, List.find?, h1]
  | cons kg0 rest ih =>
    match kg0 with
    | (k, grp) =>
      unfold add_to_groups
      by_cases hk : k = key
      · rw [if_pos hk]
        by_cases hq : k = key2
        · have h1 : decide ((k, grp ++ [s]).1 = key2) = true := by simp [hq]
          have h2 : decide ((k, grp).1 = key2) = true := by simp [hq]
          have hk2 : key2 = key := by rw [← hq, hk]
          rw [if_pos hk2]
          simp only [lookup_group, List.find?, h1, h2]
        · have h1 : decide ((k, grp ++ [s]).1 = key2) = false := by simp [hq]
          have h2 : decide ((k, grp).1 = key2) = false := by simp [hq]
          have hk2 : ¬ (key2 = key) := by rw [← hk]; exact fun h => hq h.symm
          rw [if_neg hk2]
          simp only [lookup_group, List.find?, h1, h2]
      · rw [if_neg hk]
        by_cases hq : k = key2
        · have h2 : decide ((k, grp).1 = key2) = true := by simp [hq]
          have hk2 : ¬ (key2 = key) := by
            intro h
            exact hk (by rw [hq, h])
          rw [if_neg hk2]
          simp only [lookup_group, List.find?, h2]
        · have h2 : decide ((k, grp).1 = key2) = false := by simp [hq]
          have hstep : lookup_group ((k, grp) :: add_to_groups key s rest) key2 =
              lookup_group (add_to_groups key s rest) key2 := by
            simp only [lookup_group, List.find?, h2]
          have hstep2 : lookup_group ((k, grp) :: rest) key2 = lookup_group rest key2 := by
            simp only [lookup_group, List.find?, h2]
          rw [hstep, hstep2] at *
          exact ih

theorem lookup_groups_fold (key : Int × Int) :
    ∀ (rest : List Station) (acc : List ((Int × Int) × List Station)),
      lookup_group (rest.foldl (fun a s => add_to_groups (s.x, s.y) s a) acc) key =
        lookup_group acc key ++ rest.filter (fun s => decide ((s.x, s.y) = key)) := by
  intro rest
  induction rest with
  | nil => intro acc; simp
  | cons s rest2 ih =>
    intro acc
    simp only [List.foldl_cons]
    rw [ih (add_to_groups (s.x, s.y) s acc)]
    rw [lookup_add_to_groups (s.x, s.y) key s acc]
    by_cases hc : key = (s.x, s.y)
    · rw [if_pos hc]
      have hc2 : decide ((s.x, s.y) = key) = true := by simp [hc]
      rw [List.filter_cons, hc2]
      simp
    · rw [if_neg hc]
      have hc2 : decide ((s.x, s.y) = key) = false := by
        simp only [decide_eq_false_iff_not]
        exact fun h => hc h.symm
      rw [List.filter_cons, hc2]
      simp

theorem lookup_location_groups (stations : List Station) (key : Int × Int) :
    lookup_group (location_groups stations) key =
      stations.filter (fun s => decide ((s.x, s.y) = key)) := by
  unfold location_groups
  rw [lookup_groups_fold key stations []]
  have : lookup_group [] key = [] := rfl
  rw [this, List.nil_append]

theorem mark_one_fields (groups : List ((Int × Int) × List Station)) (s : Station) :
    (mark_one groups s).id = s.id ∧ (mark_one groups s).x = s.x ∧
    (mark_one groups s).y = s.y ∧ (mark_one groups s).type = s.type := by
  unfold mark_one
  split <;> simp

theorem exists_other_of_one_lt_length {α : Type} (l : List α) (a : α)
    (hnd : l.Nodup) (ha : a ∈ l) (hl : 1 < l.length) : ∃ b ∈ l, b ≠ a := by
  match l, hnd, hl with
  | x :: y :: rest, hnd, _ =>
    by_cases hx : x = a
    · refine ⟨y, List.mem_cons_of_mem x (List.mem_cons_self y rest), ?_⟩
      intro hy
      have : x ≠ y := by
        intro hxy
        exact (List.nodup_cons.mp hnd).1 (hxy ▸ List.mem_cons_self y rest)
      exact this (by rw [hx, hy])
    · exact ⟨x, List.mem_cons_self x (y :: rest), hx⟩

theorem one_lt_length_of_two_mem {α : Type} (l : List α) (a b : α)
    (ha : a ∈ l) (hb : b ∈ l) (hab : a ≠ b) : 1 < l.length := by
  match l with
  | [] => simp at ha
  | [x] =>
    simp only [List.mem_singleton] at ha hb
    exact absurd (ha.trans hb.symm) hab
  | x :: y :: rest => simp

theorem mark_transfers_transfer_iff (stations : List Station)
    (hnd : (stations.map Station.id).Nodup)
    (htr : ∀ s ∈ stations, s.is_transfer = false) :
    ∀ s ∈ mark_transfers stations,
      (s.is_transfer = true ↔
        ∃ t ∈ mark_transfers stations, t.id ≠ s.id ∧ t.x = s.x ∧ t.y = s.y) := by
  intro s hs
  unfold mark_transfers at hs
  obtain ⟨s0, hs0, hseq⟩ := List.mem_map.mp hs
  obtain ⟨hid0, hx0, hy0, _⟩ := mark_one_fields (location_groups stations) s0
  constructor
  · intro htrue
    by_cases hcond : 1 < (lookup_group (location_groups stations) (s0.x, s0.y)).length
    · rw [lookup_location_groups] at hcond
      have hs0f : s0 ∈ stations.filter
          (fun t => decide ((t.x, t.y) = (s0.x, s0.y))) := by
        rw [List.mem_filter]
        exact ⟨hs0, by simp⟩
      obtain ⟨t0, ht0f, ht0ne⟩ := exists_other_of_one_lt_length _ s0
        ((hnd.of_map).filter _) hs0f hcond
      rw [List.mem_filter] at ht0f
      obtain ⟨ht0mem, ht0loc⟩ := ht0f
      simp only [decide_eq_true_eq, Prod.mk.injEq] at ht0loc
      refine ⟨mark_one (location_groups stations) t0, ?_, ?_, ?_, ?_⟩
      · unfold mark_transfers
        exact List.mem_map_of_mem _ ht0mem
      · obtain ⟨hidt, _, _, _⟩ := mark_one_fields (location_groups stations) t0
        rw [hidt, ← hseq, hid0]
        intro hie
        exact ht0ne (List.inj_on_of_nodup_map hnd ht0mem hs0 hie)
      · obtain ⟨_, hxt, _, _⟩ := mark_one_fields (location_groups stations) t0
        rw [hxt, ← hseq, hx0]
        exact ht0loc.1
      · obtain ⟨_, _, hyt, _⟩ := mark_one_fields (location_groups stations) t0
        rw [hyt, ← hseq, hy0]
        exact ht0loc.2
    · exfalso
      have : s = s0 := by
        rw [← hseq]
        unfold mark_one
        rw [if_neg hcond]
      rw [this] at htrue
      rw [htr s0 hs0] at htrue
      exact Bool.false_ne_true htrue
  · intro hex
    obtain ⟨t, ht, htid, htx, hty⟩ := hex
    unfold mark_transfers at ht
    obtain ⟨t0, ht0, hteq⟩ := List.mem_map.mp ht
    obtain ⟨hidt, hxt, hyt, _⟩ := mark_one_fields (location_groups stations) t0
    have ht0ne : t0 ≠ s0 := by
      intro he
      apply htid
      rw [← hteq, ← hseq, hidt, hid0, he]
    have hcond : 1 < (lookup_group (location_groups stations) (s0.x, s0.y)).length := by
      rw [lookup_location_groups]
      apply one_lt_length_of_two_mem _ s0 t0
      · rw [List.mem_filter]
        exact ⟨hs0, by simp⟩
      · rw [List.mem_filter]
        refine ⟨ht0, ?_⟩
        simp only [decide_eq_true_eq, Prod.mk.injEq]
        constructor
        · rw [← hxt, hteq, htx, ← hseq, hx0]
        · rw [← hyt, hteq, hty, ← hseq, hy0]
      · exact fun he => ht0ne he.symm
    rw [← hseq]
    unfold mark_one
    rw [if_pos hcond]

theorem generated_ids_nodup (gs : Int) (g : Rng) (p : Nat) (sts : List Station) (p2 : Nat)
    (h : generate_stations gs g p = some (sts, p2)) : (sts.map Station.id).Nodup := by
  obtain ⟨hids, _, _⟩ := generate_stations_spec gs g p sts p2 h
  rw [hids]
  exact (List.nodup_range _).map (fun a b hab => mkStationId_injective a b hab)

/-- Claim C2 (amended): in every generated CityModel, a station's
`is_transfer` flag is true exactly when at least one other station — of any
mode, not necessarily a different one — shares its exact coordinate. -/
theorem C2_amended (gs : Int) (g : Rng) (p : Nat) (m : CityModel)
    (h : generate_random_city gs g p = some m) :
    ∀ s ∈ m.stations, (s.is_transfer = true ↔
      ∃ t ∈ m.stations, t.id ≠ s.id ∧ t.x = s.x ∧ t.y = s.y) := by
  obtain ⟨sts0, zones, p1, p2, hz, hs, hstations, _, _⟩ :=
    generate_random_city_inv gs g p m h
  obtain ⟨_, htr, _⟩ := generate_stations_spec gs g p1 sts0 p2 hs
  have hms : m.stations = mark_transfers sts0 := hstations
  rw [hms]
  exact mark_transfers_transfer_iff sts0 (generated_ids_nodup gs g p1 sts0 p2 hs) htr

/-- Witness for the amended C2 on the concrete grid-size-3 generation run. -/
theorem C2_amended_witness :
    generate_random_city 3 cexStream 0 =
      some ((generate_random_city 3 cexStream 0).getD ⟨0, [], [], [], []⟩) ∧
    ∀ s ∈ ((generate_random_city 3 cexStream 0).getD ⟨0, [], [], [], []⟩).stations,
      (s.is_transfer = true ↔
        ∃ t ∈ ((generate_random_city 3 cexStream 0).getD ⟨0, [], [], [], []⟩).stations,
          t.id ≠ s.id ∧ t.x = s.x ∧ t.y = s.y) :=
  ⟨by decide, C2_amended 3 cexStream 0 _ (by decide)⟩

/-- Counterexample to claim C2 as stated: the concrete grid-size-3 run places
two bus stations (and nothing else) at cell (2,2); both are marked
`is_transfer = true` by the source even though no station of a different mode
shares their coordinate. -/
theorem C2_counterexample :
    generate_random_city 3 cexStream 0 =
      some ((generate_random_city 3 cexStream 0).getD ⟨0, [], [], [], []⟩) ∧
    ∃ s ∈ ((generate_random_city 3 cexStream 0).getD ⟨0, [], [], [], []⟩).stations,
      s.is_transfer = true ∧
      ¬ ∃ t ∈ ((generate_random_city 3 cexStream 0).getD ⟨0, [], [], [], []⟩).stations,
        t.type ≠ s.type ∧ t.x = s.x ∧ t.y = s.y :=
  ⟨by decide, by decide⟩

theorem mem_neighbors_fold (a b : String) :
    ∀ (l : List Connection) (acc : List String),
      (b ∈ l.foldl (fun acc c => if c.«from» = a then acc ++ [c.«to»]
        else if c.«to» = a then acc ++ [c.«from»] else acc) acc ↔
      b ∈ acc ∨ ∃ c ∈ l, (c.«from» = a ∧ c.«to» = b) ∨ (c.«from» = b ∧ c.«to» = a)) := by
  intro l
  induction l with
  | nil =>
    intro acc
    simp
  | cons c rest ih =>
    intro acc
    simp only [List.foldl_cons]
    by_cases h1 : c.«from» = a
    · rw [if_pos h1]
      rw [ih]
      constructor
      · rintro (hb | hb)
        · rcases List.mem_append.mp hb with h2 | h2
          · exact Or.inl h2
          · simp only [List.mem_singleton] at h2
            exact Or.inr ⟨c, List.mem_cons_self c rest, Or.inl ⟨h1, h2.symm⟩⟩
        · obtain ⟨c2, hc2, hor⟩ := hb
          exact Or.inr ⟨c2, List.mem_cons_of_mem c hc2, hor⟩
      · rintro (hb | hb)
        · exact Or.inl (List.mem_append_left _ hb)
        · obtain ⟨c2, hc2, hor⟩ := hb
          rcases List.mem_cons.mp hc2 with h2 | h2
          · rcases hor with ⟨hf, ht⟩ | ⟨hf, ht⟩
            · rw [h2] at ht
              exact Or.inl (List.mem_append_right _ (by simp [ht]))
            · rw [h2] at hf ht
              have hba : b = a := by rw [← hf, h1]
              exact Or.inl (List.mem_append_right _ (by simp [ht, hba]))
          · exact Or.inr ⟨c2, h2, hor⟩
    · rw [if_neg h1]
      by_cases h2 : c.«to» = a
      · rw [if_pos h2]
        rw [ih]
        constructor
        · rintro (hb | hb)
          · rcases List.mem_append.mp hb with h3 | h3
            · exact Or.inl h3
            · simp only [List.mem_singleton] at h3
              exact Or.inr ⟨c, List.mem_cons_self c rest, Or.inr ⟨h3.symm, h2⟩⟩
          · obtain ⟨c2, hc2, hor⟩ := hb
            exact Or.inr ⟨c2, List.mem_cons_of_mem c hc2, hor⟩
        · rintro (hb | hb)
          · exact Or.inl (List.mem_append_left _ hb)
          · obtain ⟨c2, hc2, hor⟩ := hb
            rcases List.mem_cons.mp hc2 with h3 | h3
            · rcases hor with ⟨hf, ht⟩ | ⟨hf, ht⟩
              · rw [h3] at hf
                exact absurd hf h1
              · rw [h3] at hf
                exact Or.inl (List.mem_append_right _ (by simp [hf]))
            · exact Or.inr ⟨c2, h3, hor⟩
      · rw [if_neg h2]
        rw [ih]
        constructor
        · rintro (hb | hb)
          · exact Or.inl hb
          · obtain ⟨c2, hc2, hor⟩ := hb
            exact Or.inr ⟨c2, List.mem_cons_of_mem c hc2, hor⟩
        · rintro (hb | hb)
          · exact Or.inl hb
          · obtain ⟨c2, hc2, hor⟩ := hb
            rcases List.mem_cons.mp hc2 with h3 | h3
            · rcases hor with ⟨hf, ht⟩ | ⟨hf, ht⟩
              · rw [h3] at hf
                exact absurd hf h1
              · rw [h3] at ht
                exact absurd ht h2
            · exact Or.inr ⟨c2, h3, hor⟩

theorem mem_neighbors_iff (conns : List Connection) (a b : String) :
    b ∈ neighbors conns a ↔ adj conns a b := by
  unfold neighbors adj
  rw [mem_neighbors_fold a b conns []]
  simp

theorem bfs_step_spec (nbrs : List String) :
    ∀ (v q : List String), v.Nodup →
      ∃ news, bfs_step nbrs (v, q) = (v ++ news, q ++ news) ∧
        (v ++ news).Nodup ∧
        (∀ n ∈ news, n ∈ nbrs) ∧
        (∀ n ∈ nbrs, n ∈ v ++ news) := by
  induction nbrs with
  | nil =>
    intro v q hv
    exact ⟨[], by simp [bfs_step], by simpa using hv, by simp, by simp⟩
  | cons n rest ih =>
    intro v q hv
    unfold bfs_step
    simp only [List.foldl_cons]
    by_cases hn : n ∈ v
    · rw [if_pos hn]
      obtain ⟨news, heq, hnd, hsub, hcov⟩ := ih v q hv
      unfold bfs_step at heq
      refine ⟨news, heq, hnd, ?_, ?_⟩
      · exact fun x hx => List.mem_cons_of_mem n (hsub x hx)
      · intro x hx
        rcases List.mem_cons.mp hx with h | h
        · rw [h]
          exact List.mem_append_left _ hn
        · exact hcov x h
    · rw [if_neg hn]
      have hv2 : (v ++ [n]).Nodup := by
        rw [List.nodup_append]
        exact ⟨hv, List.nodup_singleton n, by simpa using hn⟩
      obtain ⟨news, heq, hnd, hsub, hcov⟩ := ih (v ++ [n]) (q ++ [n]) hv2
      unfold bfs_step at heq
      refine ⟨n :: news, ?_, ?_, ?_, ?_⟩
      · rw [heq]
        simp
      · simpa using hnd
      · intro x hx
        rcases List.mem_cons.mp hx with h | h
        · rw [h]
          exact List.mem_cons_self n rest
        · exact List.mem_cons_of_mem n (hsub x h)
      · intro x hx
        rcases List.mem_cons.mp hx with h | h
        · rw [h]
          simp
        · have := hcov x h
          simpa using this

theorem bfs_loop_spec (conns : List Connection) (s : String) (U : List String)
    (hN : ∀ x : String, ∀ n ∈ neighbors conns x, n ∈ U) :
    ∀ (fuel : Nat) (queue visited : List String),
      visited.Nodup → (∀ x ∈ visited, x ∈ U) →
      (∀ x ∈ queue, x ∈ visited) →
      queue.Nodup →
      (∀ x ∈ visited, x ∉ queue → ∀ n ∈ neighbors conns x, n ∈ visited) →
      (∀ x ∈ visited, reach conns s x) →
      2 * U.length + queue.length ≤ fuel + 2 * visited.length →
      (∀ x ∈ visited, x ∈ bfs_loop conns fuel queue visited) ∧
      (bfs_loop conns fuel queue visited).Nodup ∧
      (∀ x ∈ bfs_loop conns fuel queue visited, x ∈ U) ∧
      (∀ x ∈ bfs_loop conns fuel queue visited, reach conns s x) ∧
      (∀ x ∈ bfs_loop conns fuel queue visited,
        ∀ n ∈ neighbors conns x, n ∈ bfs_loop conns fuel queue visited) := by
  intro fuel
  induction fuel with
  | zero =>
    intro queue visited hnd hvU hqv hqnd hclosed hreach hfuel
    have hvle : visited.length ≤ U.length := (hnd.subperm hvU).length_le
    have hq0 : queue.length = 0 := by omega
    have hqnil : queue = [] := List.eq_nil_of_length_eq_zero hq0
    subst hqnil
    simp only [bfs_loop]
    exact ⟨fun x hx => hx, hnd, hvU, hreach,
      fun x hx n hn => hclosed x hx (by simp) n hn⟩
  | succ fuel ih =>
    intro queue visited hnd hvU hqv hqnd hclosed hreach hfuel
    match queue, hqv, hqnd, hclosed, hfuel with
    | [], hqv, hqnd, hclosed, hfuel =>
      simp only [bfs_loop]
      exact ⟨fun x hx => hx, hnd, hvU, hreach,
        fun x hx n hn => hclosed x hx (by simp) n hn⟩
    | c :: rest, hqv, hqnd, hclosed, hfuel =>
      have hcv : c ∈ visited := hqv c (List.mem_cons_self c rest)
      obtain ⟨news, hstep, hndnew, hnsub, hncov⟩ :=
        bfs_step_spec (neighbors conns c) visited rest hnd
      have hul : bfs_loop conns (fuel + 1) (c :: rest) visited =
          bfs_loop conns fuel (rest ++ news) (visited ++ news) := by
        conv =>
          lhs
          rw [bfs_loop]
        rw [hstep]
      rw [hul]
      have hnewsnotv : ∀ n ∈ news, n ∉ visited := by
        intro n hn hnv
        have := (List.nodup_append.mp hndnew).2.2
        exact this hnv hn
      have hrestnd : rest.Nodup := (List.nodup_cons.mp hqnd).2
      have hnewsnd : news.Nodup := (List.nodup_append.mp hndnew).2.1
      have happly := ih (rest ++ news) (visited ++ news) hndnew
        (fun x hx => by
          rcases List.mem_append.mp hx with h | h
          · exact hvU x h
          · exact hN c x (hnsub x h))
        (fun x hx => by
          rcases List.mem_append.mp hx with h | h
          · exact List.mem_append_left _ (hqv x (List.mem_cons_of_mem c h))
          · exact List.mem_append_right _ h)
        (by
          rw [List.nodup_append]
          refine ⟨hrestnd, hnewsnd, ?_⟩
          intro x hx hx2
          exact hnewsnotv x hx2 (hqv x (List.mem_cons_of_mem c hx)))
        (by
          intro x hx hxq n hn
          rcases List.mem_append.mp hx with h | h
          · by_cases hxc : x = c
            · exact hncov n (hxc ▸ hn)
            · have hxrest : x ∉ rest := fun h2 => hxq (List.mem_append_left _ h2)
              have hxnews : x ∉ news := fun h2 => hxq (List.mem_append_right _ h2)
              have := hclosed x h (by
                intro h2
                rcases List.mem_cons.mp h2 with h3 | h3
                · exact hxc h3
                · exact hxrest h3) n hn
              exact List.mem_append_left _ this
          · exact absurd (List.mem_append_right rest h) hxq)
        (by
          intro x hx
          rcases List.mem_append.mp hx with h | h
          · exact hreach x h
          · have hadj : adj conns c x := (mem_neighbors_iff conns c x).mp (hnsub x h)
            exact Relation.ReflTransGen.tail (hreach c hcv) hadj)
        (by
          have hlv : (visited ++ news).length = visited.length + news.length := by
            simp
          have hlq : (rest ++ news).length = rest.length + news.length := by
            simp
          simp only [List.length_cons] at hfuel
          omega)
      obtain ⟨h1, h2, h3, h4, h5⟩ := happly
      exact ⟨fun x hx => h1 x (List.mem_append_left _ hx), h2, h3, h4, h5⟩

theorem flatMap_endpoints_length (conns : List Connection) :
    (conns.flatMap (fun c => [c.«from», c.«to»])).length = 2 * conns.length := by
  induction conns with
  | nil => simp
  | cons c rest ih =>
    simp only [List.flatMap_cons, List.length_append, ih]
    simp
    omega

theorem neighbors_mem_endpoints (conns : List Connection) (hd x n : String)
    (h : n ∈ neighbors conns x) :
    n ∈ (hd :: conns.flatMap (fun c => [c.«from», c.«to»])).dedup := by
  rw [List.mem_dedup]
  rw [mem_neighbors_iff] at h
  obtain ⟨c, hc, hor⟩ := h
  apply List.mem_cons_of_mem
  rw [List.mem_flatMap]
  rcases hor with ⟨_, ht⟩ | ⟨hf, _⟩
  · exact ⟨c, hc, by simp [ht]⟩
  · exact ⟨c, hc, by simp [hf]⟩

theorem bfs_from_spec (conns : List Connection) (s : String) :
    (bfs_from conns s).Nodup ∧ s ∈ bfs_from conns s ∧
      (∀ x ∈ bfs_from conns s, reach conns s x) ∧
      (∀ x, reach conns s x → x ∈ bfs_from conns s) := by
  have hUlen : ((s :: conns.flatMap (fun c => [c.«from», c.«to»])).dedup).length ≤
      1 + 2 * conns.length := by
    have h1 := (List.dedup_sublist (s :: conns.flatMap (fun c => [c.«from», c.«to»]))).length_le
    simp only [List.length_cons, flatMap_endpoints_length] at h1
    omega
  obtain ⟨h1, h2, h3, h4, h5⟩ := bfs_loop_spec conns s
    ((s :: conns.flatMap (fun c => [c.«from», c.«to»])).dedup)
    (fun x n hn => neighbors_mem_endpoints conns s x n hn)
    (bfs_fuel conns) [s] [s]
    (List.nodup_singleton s)
    (fun x hx => by
      simp only [List.mem_singleton] at hx
      rw [hx, List.mem_dedup]
      exact List.mem_cons_self _ _)
    (fun x hx => hx)
    (List.nodup_singleton s)
    (fun x hx hxq => absurd hx hxq)
    (fun x hx => by
      simp only [List.mem_singleton] at hx
      rw [hx]
      exact Relation.ReflTransGen.refl)
    (by
      unfold bfs_fuel
      simp only [List.length_singleton]
      omega)
  refine ⟨h2, h1 s (List.mem_singleton.mpr rfl), h4, ?_⟩
  intro x hx
  unfold bfs_from
  induction hx with
  | refl => exact h1 s (List.mem_singleton.mpr rfl)
  | tail hr hadj ih =>
    rename_i b c2
    exact h5 b ih c2 ((mem_neighbors_iff conns b c2).mpr hadj)

theorem reach_endpoint (conns : List Connection) (a x : String) (h : reach conns a x) :
    x = a ∨ ∃ c ∈ conns, x = c.«from» ∨ x = c.«to» := by
  induction h with
  | refl => exact Or.inl rfl
  | tail _ hadj _ =>
    rename_i b c2 _
    obtain ⟨c, hc, hor⟩ := hadj
    rcases hor with ⟨_, ht⟩ | ⟨hf, _⟩
    · exact Or.inr ⟨c, hc, Or.inr ht.symm⟩
    · exact Or.inr ⟨c, hc, Or.inl hf.symm⟩

theorem verify_connectivity_true (stations : List Station) (conns : List Connection)
    (hnd : (stations.map Station.id).Nodup)
    (hconn : ∀ a ∈ stations.map Station.id, ∀ b ∈ stations.map Station.id, reach conns a b)
    (hend : ∀ c ∈ conns, c.«from» ∈ stations.map Station.id ∧
      c.«to» ∈ stations.map Station.id) :
    verify_connectivity stations conns = true := by
  match stations, hnd, hconn with
  | [], _, _ => rfl
  | s0 :: srest, hnd, hconn =>
    unfold verify_connectivity
    rw [decide_eq_true_iff]
    obtain ⟨hVnd, hsV, hVreach, hVcompl⟩ := bfs_from_spec conns s0.id
    have hs0mem : s0.id ∈ (s0 :: srest).map Station.id := by simp
    have hmemiff : ∀ x, x ∈ bfs_from conns s0.id ↔
        x ∈ ((s0 :: srest).map Station.id).dedup := by
      intro x
      rw [List.mem_dedup]
      constructor
      · intro hx
        rcases reach_endpoint conns s0.id x (hVreach x hx) with h | h
        · rw [h]
          exact hs0mem
        · obtain ⟨c, hc, hor⟩ := h
          rcases hor with h2 | h2
          · rw [h2]
            exact (hend c hc).1
          · rw [h2]
            exact (hend c hc).2
      · intro hx
        exact hVcompl x (hconn s0.id hs0mem x hx)
    have hperm : (bfs_from conns s0.id).Perm (((s0 :: srest).map Station.id).dedup) :=
      (List.perm_ext_iff_of_nodup hVnd (List.nodup_dedup _)).mpr hmemiff
    exact hperm.length_eq

theorem ensure_connectivity_id (stations : List Station) (conns : List Connection)
    (hv : verify_connectivity stations conns = true) :
    ensure_connectivity stations conns = conns := by
  unfold ensure_connectivity
  rw [hv]
  simp

theorem reach_mono (conns1 conns2 : List Connection) (hsub : ∀ c ∈ conns1, c ∈ conns2)
    {a b : String} (h : reach conns1 a b) : reach conns2 a b := by
  apply Relation.ReflTransGen.mono _ h
  intro x y hxy
  obtain ⟨c, hc, hor⟩ := hxy
  exact ⟨c, hsub c hc, hor⟩

theorem fbp_inner_facts (stations : List Station) (connected : List String) (s1 : Station)
    (hs1mem : s1 ∈ stations) (hs1c : s1.id ∈ connected) :
    ∀ (l : List Station) (b2 : Option (Station × Station × Int)),
      (∀ s ∈ l, s ∈ stations) →
      (∀ res, b2 = some res →
        res.1 ∈ stations ∧ res.2.1 ∈ stations ∧ res.1.id ∈ connected ∧ res.2.1.id ∉ connected) →
      ∀ res, (l.foldl (fun b2 s2 =>
          if s2.id ∉ connected then
            match b2 with
            | none => some (s1, s2, |s1.x - s2.x| + |s1.y - s2.y|)
            | some (t1, t2, bd) => if |s1.x - s2.x| + |s1.y - s2.y| < bd then
                some (s1, s2, |s1.x - s2.x| + |s1.y - s2.y|) else some (t1, t2, bd)
          else b2) b2) = some res →
        res.1 ∈ stations ∧ res.2.1 ∈ stations ∧ res.1.id ∈ connected ∧ res.2.1.id ∉ connected := by
  intro l
  induction l with
  | nil => intro b2 _ hb2; exact hb2
  | cons s2 rest ih =>
    intro b2 hl hb2
    simp only [List.foldl_cons]
    apply ih _ (fun s hs => hl s (List.mem_cons_of_mem _ hs))
    intro res hres
    by_cases hc : s2.id ∉ connected
    · rw [if_pos hc] at hres
      match b2, hb2 with
      | none, _ =>
        simp only [Option.some.injEq] at hres
        rw [← hres]
        exact ⟨hs1mem, hl s2 (List.mem_cons_self _ _), hs1c, hc⟩
      | some (t1, t2, bd), hb2 =>
        have hres2 : (if |s1.x - s2.x| + |s1.y - s2.y| < bd then
            some (s1, s2, |s1.x - s2.x| + |s1.y - s2.y|)
          else some (t1, t2, bd)) = some res := hres
        by_cases hlt : |s1.x - s2.x| + |s1.y - s2.y| < bd
        · rw [if_pos hlt] at hres2
          simp only [Option.some.injEq] at hres2
          rw [← hres2]
          exact ⟨hs1mem, hl s2 (List.mem_cons_self _ _), hs1c, hc⟩
        · rw [if_neg hlt] at hres2
          exact hb2 res hres2
    · rw [if_neg hc] at hres
      exact hb2 res hres

theorem find_best_pair_facts (stations : List Station) (connected : List String) :
    ∀ res, find_best_pair stations connected = some res →
      res.1 ∈ stations ∧ res.2.1 ∈ stations ∧ res.1.id ∈ connected ∧ res.2.1.id ∉ connected := by
  unfold find_best_pair
  have main : ∀ (l : List Station) (b : Option (Station × Station × Int)),
      (∀ s ∈ l, s ∈ stations) →
      (∀ res, b = some res →
        res.1 ∈ stations ∧ res.2.1 ∈ stations ∧ res.1.id ∈ connected ∧ res.2.1.id ∉ connected) →
      ∀ res, (l.foldl (fun best s1 =>
          if s1.id ∈ connected then
            stations.foldl (fun b2 s2 =>
              if s2.id ∉ connected then
                match b2 with
                | none => some (s1, s2, |s1.x - s2.x| + |s1.y - s2.y|)
                | some (t1, t2, bd) => if |s1.x - s2.x| + |s1.y - s2.y| < bd then
                    some (s1, s2, |s1.x - s2.x| + |s1.y - s2.y|) else some (t1, t2, bd)
              else b2) best
          else best) b) = some res →
        res.1 ∈ stations ∧ res.2.1 ∈ stations ∧ res.1.id ∈ connected ∧ res.2.1.id ∉ connected := by
    intro l
    induction l with
    | nil => intro b _ hb; exact hb
    | cons s1 rest ih =>
      intro b hl hb
      simp only [List.foldl_cons]
      apply ih _ (fun s hs => hl s (List.mem_cons_of_mem _ hs))
      by_cases hc : s1.id ∈ connected
      · rw [if_pos hc]
        exact fbp_inner_facts stations connected s1 (hl s1 (List.mem_cons_self _ _)) hc
          stations b (fun s hs => hs) hb
      · rw [if_neg hc]
        exact hb
  exact main stations none (fun s hs => hs) (by simp)

theorem fbp_inner_keeps_some (connected : List String) (s1 : Station) :
    ∀ (l : List Station) (b2 : Option (Station × Station × Int)), b2.isSome →
      (l.foldl (fun b2 s2 =>
        if s2.id ∉ connected then
          match b2 with
          | none => some (s1, s2, |s1.x - s2.x| + |s1.y - s2.y|)
          | some (t1, t2, bd) => if |s1.x - s2.x| + |s1.y - s2.y| < bd then
              some (s1, s2, |s1.x - s2.x| + |s1.y - s2.y|) else some (t1, t2, bd)
          else b2) b2).isSome := by
  intro l
  induction l with
  | nil => intro b2 hb2; exact hb2
  | cons s2 rest ih =>
    intro b2 hb2
    simp only [List.foldl_cons]
    apply ih
    by_cases hc : s2.id ∉ connected
    · rw [if_pos hc]
      match b2, hb2 with
      | some (t1, t2, bd), _ =>
        show (if |s1.x - s2.x| + |s1.y - s2.y| < bd then
            some (s1, s2, |s1.x - s2.x| + |s1.y - s2.y|)
          else some (t1, t2, bd)).isSome = true
        split <;> rfl
    · rw [if_neg hc]
      exact hb2

theorem fbp_inner_some (connected : List String) (s1 : Station) :
    ∀ (l : List Station) (b2 : Option (Station × Station × Int)) (s2 : Station),
      s2 ∈ l → s2.id ∉ connected →
      (l.foldl (fun b2 s2 =>
        if s2.id ∉ connected then
          match b2 with
          | none => some (s1, s2, |s1.x - s2.x| + |s1.y - s2.y|)
          | some (t1, t2, bd) => if |s1.x - s2.x| + |s1.y - s2.y| < bd then
              some (s1, s2, |s1.x - s2.x| + |s1.y - s2.y|) else some (t1, t2, bd)
          else b2) b2).isSome := by
  intro l
  induction l with
  | nil => intro b2 s2 hs2; simp at hs2
  | cons sx rest ih =>
    intro b2 s2 hs2 hs2c
    simp only [List.foldl_cons]
    rcases List.mem_cons.mp hs2 with h | h
    · apply fbp_inner_keeps_some
      rw [h] at hs2c
      rw [if_pos hs2c]
      match b2 with
      | none => rfl
      | some (t1, t2, bd) =>
        show (if |s1.x - sx.x| + |s1.y - sx.y| < bd then
            some (s1, sx, |s1.x - sx.x| + |s1.y - sx.y|)
          else some (t1, t2, bd)).isSome = true
        split <;> rfl
    · exact ih _ s2 h hs2c

theorem find_best_pair_isSome (stations : List Station) (connected : List String)
    (s1 s2 : Station) (hs1 : s1 ∈ stations) (hs2 : s2 ∈ stations)
    (h1 : s1.id ∈ connected) (h2 : s2.id ∉ connected) :
    (find_best_pair stations connected).isSome := by
  unfold find_best_pair
  have outer_keeps : ∀ (l : List Station) (b : Option (Station × Station × Int)), b.isSome →
      (l.foldl (fun best s1 =>
        if s1.id ∈ connected then
          stations.foldl (fun b2 s2 =>
            if s2.id ∉ connected then
              match b2 with
              | none => some (s1, s2, |s1.x - s2.x| + |s1.y - s2.y|)
              | some (t1, t2, bd) => if |s1.x - s2.x| + |s1.y - s2.y| < bd then
                  some (s1, s2, |s1.x - s2.x| + |s1.y - s2.y|) else some (t1, t2, bd)
            else b2) best
        else best) b).isSome := by
    intro l
    induction l with
    | nil => intro b hb; exact hb
    | cons sx rest ih =>
      intro b hb
      simp only [List.foldl_cons]
      apply ih
      by_cases hc : sx.id ∈ connected
      · rw [if_pos hc]
        exact fbp_inner_keeps_some connected sx stations b hb
      · rw [if_neg hc]
        exact hb
  have outer_some : ∀ (l : List Station) (b : Option (Station × Station × Int)),
      s1 ∈ l →
      (l.foldl (fun best s1 =>
        if s1.id ∈ connected then
          stations.foldl (fun b2 s2 =>
            if s2.id ∉ connected then
              match b2 with
              | none => some (s1, s2, |s1.x - s2.x| + |s1.y - s2.y|)
              | some (t1, t2, bd) => if |s1.x - s2.x| + |s1.y - s2.y| < bd then
                  some (s1, s2, |s1.x - s2.x| + |s1.y - s2.y|) else some (t1, t2, bd)
            else b2) best
        else best) b).isSome := by
    intro l
    induction l with
    | nil => intro b hs; simp at hs
    | cons sx rest ih =>
      intro b hs
      simp only [List.foldl_cons]
      rcases List.mem_cons.mp hs with h | h
      · apply outer_keeps
        rw [← h, if_pos h1]
        exact fbp_inner_some connected s1 stations b s2 hs2 h2
      · exact ih _ h
  exact outer_some stations none hs1

theorem connected_covers (stations : List Station) (connected : List String)
    (hnd : (stations.map Station.id).Nodup) (hcnd : connected.Nodup)
    (hsub : ∀ x ∈ connected, x ∈ stations.map Station.id)
    (hlen : stations.length ≤ connected.length) :
    ∀ x ∈ stations.map Station.id, x ∈ connected := by
  have hperm : connected.Perm (stations.map Station.id) :=
    (hcnd.subperm hsub).perm_of_length_le (by
      rw [List.length_map]
      exact hlen)
  intro x hx
  exact hperm.mem_iff.mpr hx

theorem exists_unconnected (stations : List Station) (connected : List String)
    (hnd : (stations.map Station.id).Nodup)
    (hlt : connected.length < stations.length) :
    ∃ s2 ∈ stations, s2.id ∉ connected := by
  by_contra hcon
  push_neg at hcon
  have hsub : ∀ x ∈ stations.map Station.id, x ∈ connected := by
    intro x hx
    obtain ⟨s, hs, hsid⟩ := List.mem_map.mp hx
    exact hsid ▸ hcon s hs
  have := (hnd.subperm hsub).length_le
  rw [List.length_map] at this
  omega

theorem backbone_loop_spec (stations : List Station)
    (hnd : (stations.map Station.id).Nodup) :
    ∀ (fuel : Nat) (connected : List String) (conns : List Connection),
      connected.Nodup → connected ≠ [] →
      (∀ x ∈ connected, x ∈ stations.map Station.id) →
      (∀ a ∈ connected, ∀ b ∈ connected, reach conns a b) →
      stations.length ≤ fuel + connected.length →
      ∃ news,
        (backbone_loop stations fuel connected conns).2 = conns ++ news ∧
        (∀ x ∈ stations.map Station.id, x ∈ (backbone_loop stations fuel connected conns).1) ∧
        (∀ a ∈ (backbone_loop stations fuel connected conns).1,
          ∀ b ∈ (backbone_loop stations fuel connected conns).1,
            reach (conns ++ news) a b) ∧
        (∀ e ∈ news, e.«from» ∈ stations.map Station.id ∧
          e.«to» ∈ stations.map Station.id) ∧
        (∀ e ∈ news, e.«to» ∉ connected) ∧
        List.Pairwise (fun e1 e2 => ¬ same_pair e1 e2) news := by
  intro fuel
  induction fuel with
  | zero =>
    intro connected conns hcnd hne hsub hreach hfuel
    refine ⟨[], by simp [backbone_loop], ?_, ?_, by simp, by simp, by simp⟩
    · exact connected_covers stations connected hnd hcnd hsub (by omega)
    · simp only [backbone_loop, List.append_nil]
      exact hreach
  | succ fuel ih =>
    intro connected conns hcnd hne hsub hreach hfuel
    by_cases hlt : connected.length < stations.length
    · obtain ⟨s2x, hs2x, hs2xc⟩ := exists_unconnected stations connected hnd hlt
      obtain ⟨c0, crest, hc0⟩ := List.exists_cons_of_ne_nil hne
      have hc0mem : c0 ∈ connected := hc0 ▸ List.mem_cons_self c0 crest
      obtain ⟨s1x, hs1x, hs1xid⟩ := List.mem_map.mp (hsub c0 hc0mem)
      have hisSome := find_best_pair_isSome stations connected s1x s2x hs1x hs2x
        (hs1xid ▸ hc0mem) hs2xc
      obtain ⟨⟨s1, s2, d⟩, hfbp⟩ := Option.isSome_iff_exists.mp hisSome
      obtain ⟨hs1m, hs2m, hs1c, hs2c⟩ := find_best_pair_facts stations connected _ hfbp
      have hR : backbone_loop stations (fuel + 1) connected conns =
          backbone_loop stations fuel (connected ++ [s2.id])
            (conns ++ [⟨s1.id, s2.id, d * 120⟩]) := by
        conv =>
          lhs
          rw [backbone_loop]
        rw [if_pos hlt, hfbp]
      rw [hR]
      have hcnd2 : (connected ++ [s2.id]).Nodup := by
        rw [List.nodup_append]
        exact ⟨hcnd, List.nodup_singleton _, by simpa using hs2c⟩
      have hsub2 : ∀ x ∈ connected ++ [s2.id], x ∈ stations.map Station.id := by
        intro x hx
        rcases List.mem_append.mp hx with h | h
        · exact hsub x h
        · simp only [List.mem_singleton] at h
          rw [h]
          exact List.mem_map_of_mem _ hs2m
      have hedge : (⟨s1.id, s2.id, d * 120⟩ : Connection) ∈
          conns ++ [⟨s1.id, s2.id, d * 120⟩] := List.mem_append_right _ (by simp)
      have hreach2 : ∀ a ∈ connected ++ [s2.id], ∀ b ∈ connected ++ [s2.id],
          reach (conns ++ [⟨s1.id, s2.id, d * 120⟩]) a b := by
        have hlift : ∀ a ∈ connected, ∀ b ∈ connected,
            reach (conns ++ [⟨s1.id, s2.id, d * 120⟩]) a b := by
          intro a ha b hb
          exact reach_mono conns _ (fun c hc => List.mem_append_left _ hc) (hreach a ha b hb)
        have hadj12 : adj (conns ++ [⟨s1.id, s2.id, d * 120⟩]) s1.id s2.id :=
          ⟨_, hedge, Or.inl ⟨rfl, rfl⟩⟩
        have hadj21 : adj (conns ++ [⟨s1.id, s2.id, d * 120⟩]) s2.id s1.id :=
          ⟨_, hedge, Or.inr ⟨rfl, rfl⟩⟩
        intro a ha b hb
        rcases List.mem_append.mp ha with ha2 | ha2 <;>
          rcases List.mem_append.mp hb with hb2 | hb2
        · exact hlift a ha2 b hb2
        · simp only [List.mem_singleton] at hb2
          rw [hb2]
          exact Relation.ReflTransGen.tail (hlift a ha2 s1.id hs1c) hadj12
        · simp only [List.mem_singleton] at ha2
          rw [ha2]
          exact Relation.ReflTransGen.head hadj21 (hlift s1.id hs1c b hb2)
        · simp only [List.mem_singleton] at ha2 hb2
          rw [ha2, hb2]
          exact Relation.ReflTransGen.refl
      obtain ⟨news, ihe, ihcov, ihreach, ihend, ihto, ihpw⟩ :=
        ih (connected ++ [s2.id]) (conns ++ [⟨s1.id, s2.id, d * 120⟩]) hcnd2
          (by simp) hsub2 hreach2 (by
            simp only [List.length_append, List.length_singleton]
            omega)
      refine ⟨⟨s1.id, s2.id, d * 120⟩ :: news, ?_, ihcov, ?_, ?_, ?_, ?_⟩
      · rw [ihe, List.append_assoc]
        rfl
      · intro a ha b hb
        have := ihreach a ha b hb
        rw [List.append_assoc] at this
        exact this
      · intro e he
        rcases List.mem_cons.mp he with h | h
        · rw [h]
          exact ⟨List.mem_map_of_mem _ hs1m, List.mem_map_of_mem _ hs2m⟩
        · exact ihend e h
      · intro e he
        rcases List.mem_cons.mp he with h | h
        · rw [h]
          exact hs2c
        · intro hin
          exact ihto e h (List.mem_append_left _ hin)
      · refine List.Pairwise.cons ?_ ihpw
        intro e2 he2 hsp
        have hto2 : e2.«to» ∉ connected ++ [s2.id] := ihto e2 he2
        rcases hsp with ⟨hf, ht⟩ | ⟨hf, ht⟩
        · exact hto2 (List.mem_append_right _ (by simp [← ht]))
        · exact hto2 (List.mem_append_left _ (by
            simp only at hf
            rw [← hf]
            exact hs1c))
    · refine ⟨[], ?_, ?_, ?_, by simp, by simp, by simp⟩
      · simp only [backbone_loop, if_neg hlt, List.append_nil]
      · simp only [backbone_loop, if_neg hlt]
        exact connected_covers stations connected hnd hcnd hsub (by omega)
      · simp only [backbone_loop, if_neg hlt, List.append_nil]
        exact hreach

theorem backbone_pass_spec (stations : List Station) (conns : List Connection)
    (hnd : (stations.map Station.id).Nodup) (hne : stations ≠ []) :
    ∃ news, backbone_pass stations conns = conns ++ news ∧
      (∀ a ∈ stations.map Station.id, ∀ b ∈ stations.map Station.id,
        reach (conns ++ news) a b) ∧
      (∀ e ∈ news, e.«from» ∈ stations.map Station.id ∧
        e.«to» ∈ stations.map Station.id) ∧
      List.Pairwise (fun e1 e2 => ¬ same_pair e1 e2) news := by
  match stations, hne with
  | s0 :: srest, _ =>
    unfold backbone_pass
    obtain ⟨news, h1, h2, h3, h4, _, h6⟩ := backbone_loop_spec (s0 :: srest) hnd
      (s0 :: srest).length [s0.id] conns (List.nodup_singleton _) (by simp)
      (by
        intro x hx
        simp only [List.mem_singleton] at hx
        rw [hx]
        simp)
      (by
        intro a ha b hb
        simp only [List.mem_singleton] at ha hb
        rw [ha, hb]
        exact Relation.ReflTransGen.refl)
      (by simp)
    exact ⟨news, h1, fun a ha b hb => h3 a (h2 a ha) b (h2 b hb), h4, h6⟩

theorem conn_exists_iff (conns : List Connection) (a b : String) :
    conn_exists conns a b = true ↔
      ∃ c ∈ conns, same_pair c (⟨a, b, 0⟩ : Connection) := by
  unfold conn_exists same_pair
  rw [List.any_eq_true]
  constructor
  · rintro ⟨c, hc, hp⟩
    rw [decide_eq_true_iff] at hp
    exact ⟨c, hc, hp⟩
  · rintro ⟨c, hc, hp⟩
    exact ⟨c, hc, decide_eq_true hp⟩

theorem same_pair_ab (c : Connection) (a b : String) (w : Int) :
    same_pair c (⟨a, b, w⟩ : Connection) ↔ same_pair c (⟨a, b, 0⟩ : Connection) := by
  unfold same_pair
  rfl

theorem walk_inner_spec (s1 : Station) :
    ∀ (l : List Station) (conns : List Connection),
      ∃ added, walk_inner s1 l conns = conns ++ added ∧
        (∀ e ∈ added, ∃ s2 ∈ l, e.«from» = s1.id ∧ e.«to» = s2.id ∧
          e.walk_time = 3 ∧ s1.type ≠ s2.type) ∧
        (∀ e ∈ added, ∀ c ∈ conns, ¬ same_pair c e) ∧
        List.Pairwise (fun e1 e2 => ¬ same_pair e1 e2) added := by
  intro l
  induction l with
  | nil =>
    intro conns
    exact ⟨[], by simp [walk_inner], by simp, by simp, by simp⟩
  | cons s2 rest ih =>
    intro conns
    unfold walk_inner
    by_cases hty : s1.type = s2.type
    · rw [if_pos hty]
      obtain ⟨added, h1, h2, h3, h4⟩ := ih conns
      exact ⟨added, h1,
        fun e he => (h2 e he).elim (fun s3 hs3 =>
          ⟨s3, List.mem_cons_of_mem _ hs3.1, hs3.2⟩),
        h3, h4⟩
    · rw [if_neg hty]
      by_cases hd : |s1.x - s2.x| + |s1.y - s2.y| ≤ 2
      · rw [if_pos hd]
        by_cases hex : conn_exists conns s1.id s2.id = true
        · rw [hex]
          simp only [if_true]
          obtain ⟨added, h1, h2, h3, h4⟩ := ih conns
          exact ⟨added, h1,
            fun e he => (h2 e he).elim (fun s3 hs3 =>
              ⟨s3, List.mem_cons_of_mem _ hs3.1, hs3.2⟩),
            h3, h4⟩
        · rw [Bool.not_eq_true] at hex
          rw [hex]
          simp only [Bool.false_eq_true, if_false]
          obtain ⟨added, h1, h2, h3, h4⟩ :=
            ih (conns ++ [⟨s1.id, s2.id, max 3 ((|s1.x - s2.x| + |s1.y - s2.y|) * 100 / 60)⟩])
          have hwt : max 3 ((|s1.x - s2.x| + |s1.y - s2.y|) * 100 / 60) = 3 := by
            have habs : 0 ≤ |s1.x - s2.x| + |s1.y - s2.y| := by positivity
            have : (|s1.x - s2.x| + |s1.y - s2.y|) * 100 / 60 ≤ 3 := by
              omega
            exact max_eq_left this
          refine ⟨⟨s1.id, s2.id, max 3 ((|s1.x - s2.x| + |s1.y - s2.y|) * 100 / 60)⟩ :: added,
            ?_, ?_, ?_, ?_⟩
          · rw [h1, List.append_assoc]
            rfl
          · intro e he
            rcases List.mem_cons.mp he with h | h
            · rw [h]
              exact ⟨s2, List.mem_cons_self _ _, rfl, rfl, hwt, hty⟩
            · obtain ⟨s3, hs3, hrest⟩ := h2 e h
              exact ⟨s3, List.mem_cons_of_mem _ hs3, hrest⟩
          · intro e he c hc
            rcases List.mem_cons.mp he with h | h
            · rw [h]
              intro hsp
              have : conn_exists conns s1.id s2.id = true := by
                rw [conn_exists_iff]
                refine ⟨c, hc, ?_⟩
                rw [← same_pair_ab c s1.id s2.id
                  (max 3 ((|s1.x - s2.x| + |s1.y - s2.y|) * 100 / 60))]
                exact hsp
              rw [hex] at this
              exact Bool.false_ne_true this
            · exact h3 e h c (List.mem_append_left _ hc)
          · refine List.Pairwise.cons ?_ h4
            intro e2 he2
            have := h3 e2 he2 _ (List.mem_append_right conns (List.mem_singleton.mpr rfl))
            exact this
      · rw [if_neg hd]
        obtain ⟨added, h1, h2, h3, h4⟩ := ih conns
        exact ⟨added, h1,
          fun e he => (h2 e he).elim (fun s3 hs3 =>
            ⟨s3, List.mem_cons_of_mem _ hs3.1, hs3.2⟩),
          h3, h4⟩

theorem walking_pass_spec :
    ∀ (sts : List Station) (conns : List Connection),
      ∃ added, walking_pass sts conns = conns ++ added ∧
        (∀ e ∈ added, ∃ s1 ∈ sts, ∃ s2 ∈ sts, e.«from» = s1.id ∧ e.«to» = s2.id ∧
          e.walk_time = 3 ∧ s1.type ≠ s2.type) ∧
        (∀ e ∈ added, ∀ c ∈ conns, ¬ same_pair c e) ∧
        List.Pairwise (fun e1 e2 => ¬ same_pair e1 e2) added := by
  intro sts
  induction sts with
  | nil =>
    intro conns
    exact ⟨[], by simp [walking_pass], by simp, by simp, by simp⟩
  | cons s rest ih =>
    intro conns
    unfold walking_pass
    obtain ⟨add1, hi1, hi2, hi3, hi4⟩ := walk_inner_spec s rest conns
    rw [hi1]
    obtain ⟨add2, hw1, hw2, hw3, hw4⟩ := ih (conns ++ add1)
    rw [hw1, List.append_assoc]
    refine ⟨add1 ++ add2, rfl, ?_, ?_, ?_⟩
    · intro e he
      rcases List.mem_append.mp he with h | h
      · obtain ⟨s2, hs2, hf, ht, hwt, hty⟩ := hi2 e h
        exact ⟨s, List.mem_cons_self _ _, s2, List.mem_cons_of_mem _ hs2, hf, ht, hwt, hty⟩
      · obtain ⟨s1, hs1, s2, hs2, hrest⟩ := hw2 e h
        exact ⟨s1, List.mem_cons_of_mem _ hs1, s2, List.mem_cons_of_mem _ hs2, hrest⟩
    · intro e he c hc
      rcases List.mem_append.mp he with h | h
      · exact hi3 e h c hc
      · exact hw3 e h c (List.mem_append_left _ hc)
    · rw [List.pairwise_append]
      refine ⟨hi4, hw4, ?_⟩
      intro e1 he1 e2 he2
      have := hw3 e2 he2 e1 (List.mem_append_right _ he1)
      exact this

theorem add_to_groups_sound (U : List Station) (key : Int × Int) (st : Station)
    (hstU : st ∈ U) (hstk : (st.x, st.y) = key) :
    ∀ (acc : List ((Int × Int) × List Station)),
      (∀ kg ∈ acc, ∀ s ∈ kg.2, s ∈ U ∧ (s.x, s.y) = kg.1) →
      ∀ kg ∈ add_to_groups key st acc, ∀ s ∈ kg.2, s ∈ U ∧ (s.x, s.y) = kg.1 := by
  intro acc
  induction acc with
  | nil =>
    intro _ kg hkg s hs
    simp only [add_to_groups, List.mem_singleton] at hkg
    rw [hkg] at hs ⊢
    simp only [List.mem_singleton] at hs
    rw [hs]
    exact ⟨hstU, hstk⟩
  | cons kg0 rest ih =>
    intro hacc kg hkg s hs
    match kg0 with
    | (k, grp) =>
      unfold add_to_groups at hkg
      by_cases hk : k = key
      · rw [if_pos hk] at hkg
        rcases List.mem_cons.mp hkg with h | h
        · rw [h] at hs
          simp only at hs
          rcases List.mem_append.mp hs with h2 | h2
          · have := hacc (k, grp) (List.mem_cons_self _ _) s h2
            rw [h]
            exact this
          · simp only [List.mem_singleton] at h2
            rw [h2, h]
            exact ⟨hstU, by rw [hstk, hk]⟩
        · exact hacc kg (List.mem_cons_of_mem _ h) s hs
      · rw [if_neg hk] at hkg
        rcases List.mem_cons.mp hkg with h | h
        · rw [h] at hs ⊢
          exact hacc (k, grp) (List.mem_cons_self _ _) s hs
        · exact ih (fun kg2 hkg2 => hacc kg2 (List.mem_cons_of_mem _ hkg2)) kg h s hs

theorem loc_groups_fold_sound (U : List Station) :
    ∀ (rest : List Station) (acc : List ((Int × Int) × List Station)),
      (∀ s ∈ rest, s ∈ U) →
      (∀ kg ∈ acc, ∀ s ∈ kg.2, s ∈ U ∧ (s.x, s.y) = kg.1) →
      ∀ kg ∈ rest.foldl (fun a s => add_to_groups (s.x, s.y) s a) acc,
        ∀ s ∈ kg.2, s ∈ U ∧ (s.x, s.y) = kg.1 := by
  intro rest
  induction rest with
  | nil => intro acc _ hacc; exact hacc
  | cons st rest2 ih =>
    intro acc hrest hacc
    simp only [List.foldl_cons]
    exact ih _ (fun s hs => hrest s (List.mem_cons_of_mem _ hs))
      (add_to_groups_sound U (st.x, st.y) st (hrest st (List.mem_cons_self _ _)) rfl acc hacc)

theorem location_groups_sound (stations : List Station) :
    ∀ kg ∈ location_groups stations, ∀ s ∈ kg.2, s ∈ stations ∧ (s.x, s.y) = kg.1 := by
  unfold location_groups
  exact loc_groups_fold_sound stations stations [] (fun s hs => hs) (by simp)

theorem group_pairs_sound :
    ∀ (grp : List Station), ∀ c ∈ group_pairs grp,
      ∃ s ∈ grp, ∃ t ∈ grp, c.«from» = s.id ∧ c.«to» = t.id ∧ s.type ≠ t.type ∧
        c.walk_time = 2 := by
  intro grp
  induction grp with
  | nil => intro c hc; simp [group_pairs] at hc
  | cons s rest ih =>
    intro c hc
    unfold group_pairs at hc
    rcases List.mem_append.mp hc with h | h
    · obtain ⟨t, ht, hct⟩ := List.mem_map.mp h
      have hty : s.type ≠ t.type := of_decide_eq_true (List.mem_filter.mp ht).2
      refine ⟨s, List.mem_cons_self _ _,
        t, List.mem_cons_of_mem _ (List.mem_filter.mp ht).1, ?_⟩
      rw [← hct]
      exact ⟨rfl, rfl, hty, rfl⟩
    · obtain ⟨s2, hs2, t2, ht2, hrest⟩ := ih c h
      exact ⟨s2, List.mem_cons_of_mem _ hs2, t2, List.mem_cons_of_mem _ ht2, hrest⟩

theorem transfer_fold_sound (P : Connection → Prop) :
    ∀ (groups : List ((Int × Int) × List Station)),
      (∀ kg ∈ groups, ∀ c ∈ group_pairs kg.2, P c) →
      ∀ (acc : List Connection), (∀ c ∈ acc, P c) →
      ∀ c ∈ groups.foldl
        (fun acc kg => if 1 < kg.2.length then acc ++ group_pairs kg.2 else acc) acc,
        P c := by
  intro groups
  induction groups with
  | nil => intro _ acc hacc; exact hacc
  | cons kg rest ih =>
    intro hg acc hacc
    simp only [List.foldl_cons]
    by_cases hl : 1 < kg.2.length
    · rw [if_pos hl]
      apply ih (fun kg2 h2 => hg kg2 (List.mem_cons_of_mem _ h2))
      intro c hc
      rcases List.mem_append.mp hc with h | h
      · exact hacc c h
      · exact hg kg (List.mem_cons_self _ _) c h
    · rw [if_neg hl]
      exact ih (fun kg2 h2 => hg kg2 (List.mem_cons_of_mem _ h2)) acc hacc

theorem transfer_edges_sound (stations : List Station) :
    ∀ c ∈ transfer_edges stations, ∃ s ∈ stations, ∃ t ∈ stations,
      c.«from» = s.id ∧ c.«to» = t.id ∧ s.x = t.x ∧ s.y = t.y ∧ s.type ≠ t.type ∧
        c.walk_time = 2 := by
  unfold transfer_edges
  refine transfer_fold_sound
    (fun c => ∃ s ∈ stations, ∃ t ∈ stations,
      c.«from» = s.id ∧ c.«to» = t.id ∧ s.x = t.x ∧ s.y = t.y ∧ s.type ≠ t.type ∧
        c.walk_time = 2)
    (location_groups stations) ?_ [] (by simp)
  intro kg hkg c hc
  obtain ⟨s, hs, t, ht, hf, htt, hty, hw⟩ := group_pairs_sound kg.2 c hc
  obtain ⟨hsU, hsk⟩ := location_groups_sound stations kg hkg s hs
  obtain ⟨htU, htk⟩ := location_groups_sound stations kg hkg t ht
  have hx : s.x = t.x := by
    have := hsk.trans htk.symm
    exact (Prod.mk.injEq _ _ _ _ ▸ this).1
  have hy : s.y = t.y := by
    have := hsk.trans htk.symm
    exact (Prod.mk.injEq _ _ _ _ ▸ this).2
  exact ⟨s, hsU, t, htU, hf, htt, hx, hy, hty, hw⟩

theorem group_pairs_complete :
    ∀ (grp : List Station) (s t : Station), s ∈ grp → t ∈ grp → s ≠ t →
      s.type ≠ t.type →
      ∃ c ∈ group_pairs grp,
        (c.«from» = s.id ∧ c.«to» = t.id) ∨ (c.«from» = t.id ∧ c.«to» = s.id) := by
  intro grp
  induction grp with
  | nil => intro s t hs _ _ _; simp at hs
  | cons g0 rest ih =>
    intro s t hs ht hne hty
    rcases List.mem_cons.mp hs with hs0 | hsr
    · have htr : t ∈ rest := by
        rcases List.mem_cons.mp ht with h | h
        · exact absurd (hs0.trans h.symm) hne
        · exact h
      refine ⟨⟨g0.id, t.id, 2⟩, ?_, ?_⟩
      · unfold group_pairs
        apply List.mem_append_left
        apply List.mem_map.mpr
        refine ⟨t, List.mem_filter.mpr ⟨htr, decide_eq_true ?_⟩, rfl⟩
        rw [← hs0]
        exact hty
      · left
        rw [hs0]
        exact ⟨rfl, rfl⟩
    · rcases List.mem_cons.mp ht with ht0 | htr
      · refine ⟨⟨g0.id, s.id, 2⟩, ?_, ?_⟩
        · unfold group_pairs
          apply List.mem_append_left
          apply List.mem_map.mpr
          refine ⟨s, List.mem_filter.mpr ⟨hsr, decide_eq_true ?_⟩, rfl⟩
          rw [← ht0]
          exact fun h => hty h.symm
        · right
          rw [ht0]
          exact ⟨rfl, rfl⟩
      · obtain ⟨c, hc, hcp⟩ := ih s t hsr htr hne hty
        exact ⟨c, List.mem_append_right _ hc, hcp⟩

theorem transfer_fold_acc_mem :
    ∀ (groups : List ((Int × Int) × List Station)) (acc : List Connection)
      (c : Connection), c ∈ acc →
      c ∈ groups.foldl
        (fun acc kg => if 1 < kg.2.length then acc ++ group_pairs kg.2 else acc) acc := by
  intro groups
  induction groups with
  | nil => intro acc c hc; exact hc
  | cons kg rest ih =>
    intro acc c hc
    simp only [List.foldl_cons]
    by_cases hl : 1 < kg.2.length
    · rw [if_pos hl]
      exact ih _ c (List.mem_append_left _ hc)
    · rw [if_neg hl]
      exact ih _ c hc

theorem transfer_fold_mem :
    ∀ (groups : List ((Int × Int) × List Station))
      (kg : (Int × Int) × List Station), kg ∈ groups → 1 < kg.2.length →
      ∀ (acc : List Connection) (c : Connection), c ∈ group_pairs kg.2 →
      c ∈ groups.foldl
        (fun acc kg => if 1 < kg.2.length then acc ++ group_pairs kg.2 else acc) acc := by
  intro groups
  induction groups with
  | nil => intro kg hkg; simp at hkg
  | cons kg0 rest ih =>
    intro kg hkg hlen acc c hc
    simp only [List.foldl_cons]
    rcases List.mem_cons.mp hkg with h | h
    · rw [← h, if_pos hlen]
      exact transfer_fold_acc_mem rest _ c (List.mem_append_right _ hc)
    · by_cases hl : 1 < kg0.2.length
      · rw [if_pos hl]
        exact ih kg h hlen _ c hc
      · rw [if_neg hl]
        exact ih kg h hlen _ c hc

theorem transfer_edges_complete (stations : List Station) (s t : Station)
    (hs : s ∈ stations) (ht : t ∈ stations) (hne : s ≠ t)
    (hx : s.x = t.x) (hy : s.y = t.y) (hty : s.type ≠ t.type) :
    ∃ c ∈ transfer_edges stations,
      (c.«from» = s.id ∧ c.«to» = t.id) ∨ (c.«from» = t.id ∧ c.«to» = s.id) := by
  set key : Int × Int := (s.x, s.y) with hkey
  have hsf : s ∈ stations.filter (fun u => decide ((u.x, u.y) = key)) :=
    List.mem_filter.mpr ⟨hs, decide_eq_true rfl⟩
  have htf : t ∈ stations.filter (fun u => decide ((u.x, u.y) = key)) :=
    List.mem_filter.mpr ⟨ht, decide_eq_true (by rw [hkey, hx, hy])⟩
  have hlook := lookup_location_groups stations key
  have hsg : s ∈ lookup_group (location_groups stations) key := by rw [hlook]; exact hsf
  have htg : t ∈ lookup_group (location_groups stations) key := by rw [hlook]; exact htf
  have hne2 : lookup_group (location_groups stations) key ≠ [] := by
    intro h
    rw [h] at hsg
    simp at hsg
  unfold lookup_group at hsg htg hne2
  match hfind : (location_groups stations).find? (fun kg => decide (kg.1 = key)) with
  | none =>
    rw [hfind] at hne2
    exact absurd rfl hne2
  | some kg =>
    rw [hfind] at hsg htg
    have hkgmem : kg ∈ location_groups stations := List.mem_of_find?_eq_some hfind
    have hlen : 1 < kg.2.length := one_lt_length_of_two_mem kg.2 s t hsg htg hne
    obtain ⟨c, hc, hcp⟩ := group_pairs_complete kg.2 s t hsg htg hne hty
    refine ⟨c, ?_, hcp⟩
    unfold transfer_edges
    exact transfer_fold_mem (location_groups stations) kg hkgmem hlen [] c hc

theorem conn_exists_mono (conns more : List Connection) (a b : String)
    (h : conn_exists conns a b = true) : conn_exists (conns ++ more) a b = true := by
  rw [conn_exists_iff] at h ⊢
  obtain ⟨c, hc, hp⟩ := h
  exact ⟨c, List.mem_append_left _ hc, hp⟩

theorem mark_transfers_ids (stations : List Station) :
    (mark_transfers stations).map Station.id = stations.map Station.id := by
  unfold mark_transfers
  rw [List.map_map]
  apply List.map_congr_left
  intro s _
  exact (mark_one_fields (location_groups stations) s).1

theorem generate_connections_spec (stations : List Station)
    (hnd : (stations.map Station.id).Nodup) (hne : stations ≠ []) :
    (generate_connections stations).1 = mark_transfers stations ∧
    ∃ newsB newsW,
      (generate_connections stations).2 =
        transfer_edges stations ++ newsB ++ newsW ∧
      backbone_pass (mark_transfers stations) (transfer_edges stations) =
        transfer_edges stations ++ newsB ∧
      (∀ a ∈ stations.map Station.id, ∀ b ∈ stations.map Station.id,
        reach (generate_connections stations).2 a b) ∧
      (∀ e ∈ newsW, ∃ s1 ∈ mark_transfers stations, ∃ s2 ∈ mark_transfers stations,
        e.«from» = s1.id ∧ e.«to» = s2.id ∧ e.walk_time = 3 ∧ s1.type ≠ s2.type) ∧
      List.Pairwise (fun e1 e2 => ¬ same_pair e1 e2) newsB ∧
      List.Pairwise (fun e1 e2 => ¬ same_pair e1 e2) newsW ∧
      (∀ e ∈ newsW, ∀ c ∈ transfer_edges stations ++ newsB, ¬ same_pair c e) := by
  have hnem : mark_transfers stations ≠ [] := by
    intro h
    have := mark_transfers_ids stations
    rw [h] at this
    match stations, hne with
    | s :: rest, _ => simp at this
  have hndm : ((mark_transfers stations).map Station.id).Nodup := by
    rw [mark_transfers_ids]
    exact hnd
  obtain ⟨newsB, hb1, hb2, hb3, hb4⟩ :=
    backbone_pass_spec (mark_transfers stations) (transfer_edges stations) hndm hnem
  obtain ⟨newsW, hw1, hw2, hw3, hw4⟩ :=
    walking_pass_spec (mark_transfers stations) (transfer_edges stations ++ newsB)
  have hc3 : walking_pass (mark_transfers stations)
      (backbone_pass (mark_transfers stations) (transfer_edges stations)) =
      transfer_edges stations ++ newsB ++ newsW := by
    rw [hb1, hw1]
  have hidseq : (mark_transfers stations).map Station.id = stations.map Station.id :=
    mark_transfers_ids stations
  have hreach3 : ∀ a ∈ stations.map Station.id, ∀ b ∈ stations.map Station.id,
      reach (transfer_edges stations ++ newsB ++ newsW) a b := by
    intro a ha b hb
    rw [← hidseq] at ha hb
    exact reach_mono _ _ (fun c hc => List.mem_append_left _ hc) (hb2 a ha b hb)
  have hend : ∀ c ∈ transfer_edges stations ++ newsB ++ newsW,
      c.«from» ∈ (mark_transfers stations).map Station.id ∧
      c.«to» ∈ (mark_transfers stations).map Station.id := by
    intro c hc
    rcases List.mem_append.mp hc with h | h
    · rcases List.mem_append.mp h with h2 | h2
      · obtain ⟨s, hsU, t, htU, hf, htt, _, _, _, _⟩ := transfer_edges_sound stations c h2
        rw [hidseq, hf, htt]
        exact ⟨List.mem_map_of_mem Station.id hsU, List.mem_map_of_mem Station.id htU⟩
      · exact hb3 c h2
    · obtain ⟨s1, hs1, s2, hs2, hf, ht, _, _⟩ := hw2 c h
      rw [hf, ht]
      exact ⟨List.mem_map_of_mem Station.id hs1, List.mem_map_of_mem Station.id hs2⟩
  have hver : verify_connectivity (mark_transfers stations)
      (transfer_edges stations ++ newsB ++ newsW) = true := by
    apply verify_connectivity_true _ _ hndm _ hend
    intro a ha b hb
    rw [hidseq] at ha hb
    exact hreach3 a ha b hb
  have hgc : generate_connections stations =
      (mark_transfers stations,
        ensure_connectivity (mark_transfers stations)
          (walking_pass (mark_transfers stations)
            (backbone_pass (mark_transfers stations) (transfer_edges stations)))) := rfl
  rw [hgc]
  refine ⟨rfl, newsB, newsW, ?_, hb1, ?_, ?_, hb4, hw4, hw3⟩
  · simp only [hc3]
    exact ensure_connectivity_id _ _ hver
  · simp only [hc3]
    rw [ensure_connectivity_id _ _ hver]
    exact hreach3
  · intro e he
    exact hw2 e he

/-- Claim C10: every connection appended by the local-walking pass (run on the
marked stations after the transfer and backbone passes) has `walk_time`
exactly 3, and every co-located different-mode pair of distinct stations
already carries a transfer edge from the co-location pass, so the walking
pass's existence check skips distance-0 different-mode pairs. -/
theorem C10_walking_walk_time (stations : List Station) :
    (∀ e ∈ (walking_pass (mark_transfers stations)
        (backbone_pass (mark_transfers stations) (transfer_edges stations))).drop
        (backbone_pass (mark_transfers stations) (transfer_edges stations)).length,
      e.walk_time = 3) ∧
    (∀ s ∈ mark_transfers stations, ∀ t ∈ mark_transfers stations,
      s.id ≠ t.id → s.x = t.x → s.y = t.y → s.type ≠ t.type →
      conn_exists (transfer_edges stations) s.id t.id = true) := by
  constructor
  · obtain ⟨added, hw1, hw2, _, _⟩ := walking_pass_spec (mark_transfers stations)
      (backbone_pass (mark_transfers stations) (transfer_edges stations))
    rw [hw1, List.drop_left]
    intro e he
    obtain ⟨s1, _, s2, _, _, _, hwt, _⟩ := hw2 e he
    exact hwt
  · intro s hs t ht hid hx hy hty
    unfold mark_transfers at hs ht
    obtain ⟨s0, hs0, hseq⟩ := List.mem_map.mp hs
    obtain ⟨t0, ht0, hteq⟩ := List.mem_map.mp ht
    obtain ⟨hsid, hsx, hsy, hstype⟩ := mark_one_fields (location_groups stations) s0
    obtain ⟨htid, htx, hty2, httype⟩ := mark_one_fields (location_groups stations) t0
    rw [hseq] at hsid hsx hsy hstype
    rw [hteq] at htid htx hty2 httype
    have hne0 : s0 ≠ t0 := by
      intro h
      apply hid
      rw [hsid, htid, h]
    obtain ⟨c, hc, hcp⟩ := transfer_edges_complete stations s0 t0 hs0 ht0 hne0
      (by rw [← hsx, ← htx]; exact hx) (by rw [← hsy, ← hty2]; exact hy)
      (by rw [← hstype, ← httype]; exact hty)
    rw [conn_exists_iff]
    refine ⟨c, hc, ?_⟩
    unfold same_pair
    simp only []
    rcases hcp with ⟨hf, h2⟩ | ⟨hf, h2⟩
    · left
      rw [hf, h2, hsid, htid]
      exact ⟨rfl, rfl⟩
    · right
      rw [hf, h2, hsid, htid]
      exact ⟨rfl, rfl⟩

/-- Witness for C10 on a concrete three-station list: the walking pass adds
exactly the tram-bus edge with `walk_time` 3, and the co-located metro/tram
pair is already covered by a transfer edge. -/
theorem C10_walking_walk_time_witness :
    ((⟨"station_1", "station_2", 3⟩ : Connection) ∈
      (walking_pass (mark_transfers c10sts)
        (backbone_pass (mark_transfers c10sts) (transfer_edges c10sts))).drop
        (backbone_pass (mark_transfers c10sts) (transfer_edges c10sts)).length) ∧
    (⟨"station_1", "station_2", 3⟩ : Connection).walk_time = 3 ∧
    (⟨"station_0", 0, 0, "metro", true⟩ : Station) ∈ mark_transfers c10sts ∧
    (⟨"station_1", 0, 0, "tram", true⟩ : Station) ∈ mark_transfers c10sts ∧
    conn_exists (transfer_edges c10sts) "station_0" "station_1" = true :=
  ⟨by decide,
   (C10_walking_walk_time c10sts).1 ⟨"station_1", "station_2", 3⟩ (by decide),
   by decide, by decide,
   (C10_walking_walk_time c10sts).2 ⟨"station_0", 0, 0, "metro", true⟩ (by decide)
     ⟨"station_1", 0, 0, "tram", true⟩ (by decide) (by decide) (by decide) (by decide)
     (by decide)⟩

/-- Claim C1: in every generated CityModel, the connections list viewed as an
undirected graph over station ids is connected — the BFS of
`_verify_connectivity`, started from any station of the model, reaches every
station id of the model. -/
theorem C1_connectivity (gs : Int) (g : Rng) (p : Nat) (m : CityModel)
    (h : generate_random_city gs g p = some m) :
    ∀ s ∈ m.stations, ∀ t ∈ m.stations, t.id ∈ bfs_from m.connections s.id := by
  obtain ⟨sts0, zones, p1, p2, _, hsgen, hstations, hconns, _⟩ :=
    generate_random_city_inv gs g p m h
  have hnd := generated_ids_nodup gs g p1 sts0 p2 hsgen
  intro s hsm t htm
  by_cases hne : sts0 = []
  · rw [hne] at hstations
    have : m.stations = [] := by
      rw [hstations]
      rfl
    rw [this] at hsm
    simp at hsm
  · obtain ⟨hfst, newsB, newsW, _, _, hreach, _⟩ := generate_connections_spec sts0 hnd hne
    rw [hstations, hfst] at hsm htm
    have hsid : s.id ∈ sts0.map Station.id := by
      rw [← mark_transfers_ids]
      exact List.mem_map_of_mem Station.id hsm
    have htid : t.id ∈ sts0.map Station.id := by
      rw [← mark_transfers_ids]
      exact List.mem_map_of_mem Station.id htm
    have hr : reach m.connections s.id t.id := by
      rw [hconns]
      exact hreach s.id hsid t.id htid
    exact (bfs_from_spec m.connections s.id).2.2.2 t.id hr

/-- Witness for C1 on the concrete grid-size-3 generation run. -/
theorem C1_connectivity_witness :
    generate_random_city 3 cexStream 0 =
      some ((generate_random_city 3 cexStream 0).getD ⟨0, [], [], [], []⟩) ∧
    ∀ s ∈ ((generate_random_city 3 cexStream 0).getD ⟨0, [], [], [], []⟩).stations,
      ∀ t ∈ ((generate_random_city 3 cexStream 0).getD ⟨0, [], [], [], []⟩).stations,
        t.id ∈ bfs_from
          ((generate_random_city 3 cexStream 0).getD ⟨0, [], [], [], []⟩).connections
          s.id :=
  ⟨by decide, C1_connectivity 3 cexStream 0 _ (by decide)⟩

/-- Claim C3 (amended): a duplicated unordered pair can occur in a generated
model's connections list, but only between two co-located stations — whenever
two entries of the list form the same unordered pair, the endpoints of the
first resolve to stations of the model sharing an exact coordinate. -/
theorem C3_amended (gs : Int) (g : Rng) (p : Nat) (m : CityModel)
    (h : generate_random_city gs g p = some m) :
    ∀ c d : Connection, List.Sublist [c, d] m.connections → same_pair c d →
      ∃ s ∈ m.stations, ∃ t ∈ m.stations, c.«from» = s.id ∧ c.«to» = t.id ∧
        s.x = t.x ∧ s.y = t.y := by
  obtain ⟨sts0, zones, p1, p2, _, hsgen, hstations, hconns, _⟩ :=
    generate_random_city_inv gs g p m h
  have hnd := generated_ids_nodup gs g p1 sts0 p2 hsgen
  intro c d hsub hsp
  by_cases hne : sts0 = []
  · rw [hne] at hconns
    have hzero : m.connections = [] := by rw [hconns]; rfl
    rw [hzero] at hsub
    exact absurd hsub (by simp)
  · obtain ⟨hfst, newsB, newsW, hc3, _, _, _, hPB, hPW, hWvs⟩ :=
      generate_connections_spec sts0 hnd hne
    have hfin : c ∈ transfer_edges sts0 →
        ∃ s ∈ m.stations, ∃ t ∈ m.stations, c.«from» = s.id ∧ c.«to» = t.id ∧
          s.x = t.x ∧ s.y = t.y := by
      intro hc
      obtain ⟨s, hsU, t, htU, hf, htt, hx, hy, _, _⟩ := transfer_edges_sound sts0 c hc
      refine ⟨mark_one (location_groups sts0) s, ?_,
        mark_one (location_groups sts0) t, ?_, ?_, ?_, ?_, ?_⟩
      · rw [hstations, hfst]
        exact List.mem_map_of_mem _ hsU
      · rw [hstations, hfst]
        exact List.mem_map_of_mem _ htU
      · rw [(mark_one_fields _ s).1]
        exact hf
      · rw [(mark_one_fields _ t).1]
        exact htt
      · rw [(mark_one_fields _ s).2.1, (mark_one_fields _ t).2.1]
        exact hx
      · rw [(mark_one_fields _ s).2.2.1, (mark_one_fields _ t).2.2.1]
        exact hy
    rw [hconns, hc3] at hsub
    rcases List.sublist_append_iff.mp hsub with ⟨l1, l2, heq, hsub1, hsub2⟩
    match l1, heq, hsub1 with
    | [], heq, _ =>
      rw [List.nil_append] at heq
      rw [← heq] at hsub2
      have hp := List.Pairwise.sublist hsub2 hPW
      rcases List.pairwise_cons.mp hp with ⟨h1, _⟩
      exact absurd hsp (h1 d (List.mem_singleton.mpr rfl))
    | [x], heq, hsub1 =>
      have hx : x = c ∧ l2 = [d] := by
        have := heq
        simp only [List.cons_append, List.nil_append, List.cons.injEq] at this
        exact ⟨this.1.symm, this.2.symm⟩
      rw [hx.1] at hsub1
      rw [hx.2] at hsub2
      have hcmem : c ∈ transfer_edges sts0 ++ newsB := List.singleton_sublist.mp hsub1
      have hdmem : d ∈ newsW := List.singleton_sublist.mp hsub2
      rcases List.mem_append.mp hcmem with hc | hc
      · exact hfin hc
      · exact absurd hsp (hWvs d hdmem c (List.mem_append_right _ hc))
    | x :: y :: l1s, heq, hsub1 =>
      have hx : x = c ∧ y = d ∧ l1s = [] := by
        have := heq
        simp only [List.cons_append, List.cons.injEq] at this
        have h3 : l1s ++ l2 = [] := this.2.2.symm
        exact ⟨this.1.symm, this.2.1.symm, (List.append_eq_nil.mp h3).1⟩
      rw [hx.1, hx.2.1, hx.2.2] at hsub1
      rcases List.sublist_append_iff.mp hsub1 with ⟨r1, r2, heq2, hsubr1, hsubr2⟩
      match r1, heq2, hsubr1 with
      | [], heq2, _ =>
        rw [List.nil_append] at heq2
        rw [← heq2] at hsubr2
        have hp := List.Pairwise.sublist hsubr2 hPB
        rcases List.pairwise_cons.mp hp with ⟨h1, _⟩
        exact absurd hsp (h1 d (List.mem_singleton.mpr rfl))
      | [z], heq2, hsubr1 =>
        have hz : z = c := by
          have := heq2
          simp only [List.cons_append, List.nil_append, List.cons.injEq] at this
          exact this.1.symm
        rw [hz] at hsubr1
        exact hfin (List.singleton_sublist.mp hsubr1)
      | z :: w :: r1s, heq2, hsubr1 =>
        have hz : z = c ∧ w = d ∧ r1s = [] := by
          have := heq2
          simp only [List.cons_append, List.cons.injEq] at this
          have h3 : r1s ++ r2 = [] := this.2.2.symm
          exact ⟨this.1.symm, this.2.1.symm, (List.append_eq_nil.mp h3).1⟩
        rw [hz.1, hz.2.1, hz.2.2] at hsubr1
        have hcmem : c ∈ transfer_edges sts0 := hsubr1.subset (List.mem_cons_self _ _)
        exact hfin hcmem

/-- Counterexample to claim C3 as stated: in the concrete grid-size-3 run the
unordered pair of station ids (station_0, station_3) appears twice in the
connections list — once as a co-location transfer edge and once as a backbone
edge, which is built ignoring existing edges. -/
theorem C3_counterexample :
    generate_random_city 3 cexStream 0 =
      some ((generate_random_city 3 cexStream 0).getD ⟨0, [], [], [], []⟩) ∧
    1 < ((generate_random_city 3 cexStream 0).getD ⟨0, [], [], [], []⟩).connections.countP
      (fun d => decide (same_pair (⟨"station_0", "station_3", 2⟩ : Connection) d)) :=
  ⟨by decide, by decide⟩

/-- Witness for the amended C3 on the concrete duplicated pair of the
grid-size-3 run: the two entries with pair (station_0, station_3) resolve to
co-located stations. -/
theorem C3_amended_witness :
    generate_random_city 3 cexStream 0 =
      some ((generate_random_city 3 cexStream 0).getD ⟨0, [], [], [], []⟩) ∧
    List.Sublist
      [(⟨"station_0", "station_3", 2⟩ : Connection), ⟨"station_0", "station_3", 0⟩]
      ((generate_random_city 3 cexStream 0).getD ⟨0, [], [], [], []⟩).connections ∧
    same_pair (⟨"station_0", "station_3", 2⟩ : Connection)
      (⟨"station_0", "station_3", 0⟩ : Connection) ∧
    ∃ s ∈ ((generate_random_city 3 cexStream 0).getD ⟨0, [], [], [], []⟩).stations,
      ∃ t ∈ ((generate_random_city 3 cexStream 0).getD ⟨0, [], [], [], []⟩).stations,
        (⟨"station_0", "station_3", 2⟩ : Connection).«from» = s.id ∧
        (⟨"station_0", "station_3", 2⟩ : Connection).«to» = t.id ∧
        s.x = t.x ∧ s.y = t.y :=
  ⟨by decide, by decide, by decide,
    C3_amended 3 cexStream 0 _ (by decide)
      (⟨"station_0", "station_3", 2⟩ : Connection)
      (⟨"station_0", "station_3", 0⟩ : Connection) (by decide) (by decide)⟩
